import Mathlib

/-!
Verification of the search-layer scripts of this repository
(`fetch_thread.py`, `relevance_gate.py`, `chain_tracker.py`).

Strings are modelled as `List Char`; Python numbers (ints and floats) are
modelled as exact rationals `ℚ` — the scripts never do float arithmetic,
they only parse and compare decimal literals, so `ℚ` is faithful except for
sub-ULP rounding distinctions that no claim touches.  JSON values are a
deep inductive `JVal`; Python's dynamic attribute/type errors are modelled
with `Except PyErr`.
-/

set_option maxRecDepth 4000

-- ## Basic character/string helpers

/-- The ASCII whitespace characters stripped by Python's `str.strip()`
(non-ASCII unicode whitespace is not modelled; the scripts' inputs here are
ASCII). -/
def isPyWs (c : Char) : Bool :=
  c == ' ' || c == '\t' || c == '\n' || c == '\r' || c == Char.ofNat 11 || c == Char.ofNat 12

def pyLstrip (s : List Char) : List Char := s.dropWhile isPyWs

def pyRstrip (s : List Char) : List Char := (s.reverse.dropWhile isPyWs).reverse

/-- Python `str.strip()`. -/
def pyStrip (s : List Char) : List Char := pyRstrip (pyLstrip s)

/-- Python `str.rstrip(c)` for a single strip character. -/
def rstripChar (c : Char) (s : List Char) : List Char :=
  (s.reverse.dropWhile (· == c)).reverse

/-- `url.rstrip("/")` — the canonical form used for dedup keys. -/
def canonU (s : List Char) : List Char := rstripChar '/' s

def digitChar (n : Nat) : Char := Char.ofNat (48 + n)

def natReprL (n : Nat) : List Char :=
  go n []
where
  go (n : Nat) (acc : List Char) : List Char :=
    if h : n < 10 then digitChar n :: acc
    else go (n / 10) (digitChar (n % 10) :: acc)
  termination_by n
  decreasing_by exact Nat.div_lt_self (by omega) (by omega)

def intReprL (i : Int) : List Char :=
  if i < 0 then '-' :: natReprL i.natAbs else natReprL i.natAbs

-- ## JSON values

/-- Deep embedding of the JSON-ish values manipulated by the scripts.
`null` doubles as Python's `None` (they are the same object after
`json.loads`). -/
inductive JVal where
  | null : JVal
  | bool : Bool → JVal
  | num : ℚ → JVal
  | str : List Char → JVal
  | arr : List JVal → JVal
  | obj : List (List Char × JVal) → JVal

mutual

def jvalBEq : JVal → JVal → Bool
  | .null, .null => true
  | .bool a, .bool b => a == b
  | .num a, .num b => a == b
  | .str a, .str b => a == b
  | .arr a, .arr b => jvalBEqL a b
  | .obj a, .obj b => jvalBEqKV a b
  | _, _ => false

def jvalBEqL : List JVal → List JVal → Bool
  | [], [] => true
  | x :: xs, y :: ys => jvalBEq x y && jvalBEqL xs ys
  | _, _ => false

def jvalBEqKV : List (List Char × JVal) → List (List Char × JVal) → Bool
  | [], [] => true
  | (k1, v1) :: xs, (k2, v2) :: ys => k1 == k2 && jvalBEq v1 v2 && jvalBEqKV xs ys
  | _, _ => false

end

mutual

theorem jvalBEq_iff : ∀ a b : JVal, jvalBEq a b = true ↔ a = b
  | .null, b => by cases b <;> simp [jvalBEq]
  | .bool x, b => by cases b <;> simp [jvalBEq]
  | .num x, b => by cases b <;> simp [jvalBEq]
  | .str x, b => by cases b <;> simp [jvalBEq]
  | .arr xs, b => by
    cases b with
    | arr ys => simpa [jvalBEq] using jvalBEqL_iff xs ys
    | null => simp [jvalBEq]
    | bool y => simp [jvalBEq]
    | num y => simp [jvalBEq]
    | str y => simp [jvalBEq]
    | obj y => simp [jvalBEq]
  | .obj xs, b => by
    cases b with
    | obj ys => simpa [jvalBEq] using jvalBEqKV_iff xs ys
    | null => simp [jvalBEq]
    | bool y => simp [jvalBEq]
    | num y => simp [jvalBEq]
    | str y => simp [jvalBEq]
    | arr y => simp [jvalBEq]

theorem jvalBEqL_iff : ∀ a b : List JVal, jvalBEqL a b = true ↔ a = b
  | [], b => by cases b <;> simp [jvalBEqL]
  | x :: xs, b => by
    cases b with
    | nil => simp [jvalBEqL]
    | cons y ys =>
      have h1 := jvalBEq_iff x y
      have h2 := jvalBEqL_iff xs ys
      simp [jvalBEqL, h1, h2]

theorem jvalBEqKV_iff : ∀ a b : List (List Char × JVal), jvalBEqKV a b = true ↔ a = b
  | [], b => by cases b <;> simp [jvalBEqKV]
  | (k1, v1) :: xs, b => by
    cases b with
    | nil => simp [jvalBEqKV]
    | cons y ys =>
      obtain ⟨k2, v2⟩ := y
      have h1 := jvalBEq_iff v1 v2
      have h2 := jvalBEqKV_iff xs ys
      simp [jvalBEqKV, h1, h2]

end

instance : DecidableEq JVal := fun a b =>
  decidable_of_iff (jvalBEq a b = true) (jvalBEq_iff a b)

instance : DecidableEq (Except Unit JVal) := fun a b =>
  match a, b with
  | .ok x, .ok y =>
      if h : x = y then .isTrue (by rw [h])
      else .isFalse (fun hc => h (by cases hc; rfl))
  | .error x, .error y => .isTrue (by cases x; cases y; rfl)
  | .ok _, .error _ => .isFalse (fun hc => Except.noConfusion hc)
  | .error _, .ok _ => .isFalse (fun hc => Except.noConfusion hc)

/-- First binding for a key in an association list (our objects keep keys
unique, mirroring Python dicts). -/
def objFind (kvs : List (List Char × JVal)) (k : List Char) : Option JVal :=
  match kvs with
  | [] => none
  | (k0, v) :: rest => if k0 = k then some v else objFind rest k

/-- Dict insertion: updating an existing key keeps its position (Python dict
semantics); a new key is appended. -/
def objInsert (kvs : List (List Char × JVal)) (k : List Char) (v : JVal) :
    List (List Char × JVal) :=
  if (objFind kvs k).isSome then
    kvs.map (fun p => if p.1 = k then (k, v) else p)
  else kvs ++ [(k, v)]

-- ## JSON parser (model of Python's `json.loads`)

def isJWs (c : Char) : Bool := c == ' ' || c == '\t' || c == '\n' || c == '\r'

def jws (s : List Char) : List Char := s.dropWhile isJWs

def hexVal (c : Char) : Option Nat :=
  if c.isDigit then some (c.toNat - 48)
  else if 'a' ≤ c ∧ c ≤ 'f' then some (c.toNat - 87)
  else if 'A' ≤ c ∧ c ≤ 'F' then some (c.toNat - 55)
  else none

def parseHex4 : List Char → Option (Nat × List Char)
  | a :: b :: c :: d :: rest => do
    let va ← hexVal a
    let vb ← hexVal b
    let vc ← hexVal c
    let vd ← hexVal d
    some (va * 4096 + vb * 256 + vc * 16 + vd, rest)
  | _ => none

/-- Parse a JSON string body (the opening quote already consumed); returns
the decoded characters and the remaining input after the closing quote.
Surrogate pairs in `\uXXXX` escapes are combined; a lone surrogate is a
parse error here (Python tolerates lone surrogates, but Lean `Char` cannot
represent them — no claim depends on this corner).  The fuel bounds the
number of steps; each step consumes at least one input character, so a fuel
of `input.length + 1` can never run out. -/
def parseJString : Nat → List Char → Option (List Char × List Char)
  | 0, _ => none
  | _, [] => none
  | fuel + 1, c :: rest =>
    if c = '"' then some ([], rest)
    else if c = '\\' then
      match rest with
      | [] => none
      | e :: rest2 =>
        let simple : Option Char :=
          if e = '"' then some '"'
          else if e = '\\' then some '\\'
          else if e = '/' then some '/'
          else if e = 'b' then some (Char.ofNat 8)
          else if e = 'f' then some (Char.ofNat 12)
          else if e = 'n' then some '\n'
          else if e = 'r' then some '\r'
          else if e = 't' then some '\t'
          else none
        match simple with
        | some ch => do
          let (s, r) ← parseJString fuel rest2
          some (ch :: s, r)
        | none =>
          if e = 'u' then
            match parseHex4 rest2 with
            | none => none
            | some (n, rest3) =>
              if 0xD800 ≤ n ∧ n ≤ 0xDBFF then
                match rest3 with
                | '\\' :: 'u' :: rest4 =>
                  match parseHex4 rest4 with
                  | some (m, rest5) =>
                    if 0xDC00 ≤ m ∧ m ≤ 0xDFFF then do
                      let cp := 0x10000 + (n - 0xD800) * 1024 + (m - 0xDC00)
                      let (s, r) ← parseJString fuel rest5
                      some (Char.ofNat cp :: s, r)
                    else none
                  | none => none
                | _ => none
              else if 0xDC00 ≤ n ∧ n ≤ 0xDFFF then none
              else do
                let (s, r) ← parseJString fuel rest3
                some (Char.ofNat n :: s, r)
          else none
    else if c.toNat < 0x20 then none
    else do
      let (s, r) ← parseJString fuel rest
      some (c :: s, r)

def takeDigits (s : List Char) : List Char × List Char :=
  (s.takeWhile Char.isDigit, s.dropWhile Char.isDigit)

def digitsToNat (ds : List Char) : Nat :=
  ds.foldl (fun a c => a * 10 + (c.toNat - 48)) 0

/-- JSON number grammar, as matched by Python's json `NUMBER_RE`:
`-? (0 | [1-9][0-9]*) (. [0-9]+)? ([eE][+-]?[0-9]+)?`.
Where Python's regex leaves a malformed tail (e.g. `1.`), it matches the
shorter number and the extra characters fail at the enclosing level; this
model returns `none` there, which gives the same observable `json_loads`
outcome (an error) in every such case.  `NaN`/`Infinity` (accepted by
Python) are not representable in `ℚ` and are parse errors here — no claim
touches them. -/
def parseJNum (s : List Char) : Option (ℚ × List Char) :=
  let (neg, s1) := match s with
    | '-' :: r => (true, r)
    | _ => (false, s)
  match s1 with
  | [] => none
  | c :: r =>
    if ¬ c.isDigit then none
    else
      let (ipart, rest1) :=
        if c = '0' then ((0 : Nat), r)
        else
          let (ds, r2) := takeDigits s1
          (digitsToNat ds, r2)
      let fracRes : Option (Nat × Nat × List Char) :=
        match rest1 with
        | '.' :: r2 =>
          let (ds, r3) := takeDigits r2
          if ds = [] then none else some (digitsToNat ds, ds.length, r3)
        | _ => some (0, 0, rest1)
      match fracRes with
      | none => none
      | some (frac, fd, rest2) =>
        let expRes : Option (Int × List Char) :=
          match rest2 with
          | e :: r2 =>
            if e = 'e' ∨ e = 'E' then
              let (esign, r3) : Int × List Char :=
                match r2 with
                | '+' :: r4 => (1, r4)
                | '-' :: r4 => (-1, r4)
                | _ => (1, r2)
              let (ds, r4) := takeDigits r3
              if ds = [] then none else some (esign * (digitsToNat ds : Int), r4)
            else some (0, rest2)
          | _ => some (0, rest2)
        match expRes with
        | none => none
        | some (ex, rest3) =>
          let n : Int := (ipart : Int) * (10 : Int) ^ fd + (frac : Int)
          let mag : ℚ :=
            if 0 ≤ ex then Rat.divInt (n * (10 : Int) ^ ex.toNat) ((10 : Int) ^ fd)
            else Rat.divInt n ((10 : Int) ^ fd * (10 : Int) ^ ((-ex).toNat))
          some ((if neg then -mag else mag), rest3)

/-- Used when building an object front-to-back with Python dict semantics:
a key keeps its first position but takes its last value. -/
def objPrepend (k : List Char) (v : JVal) (kvs : List (List Char × JVal)) :
    List (List Char × JVal) :=
  match objFind kvs k with
  | some v2 => (k, v2) :: kvs.filter (fun p => p.1 != k)
  | none => (k, v) :: kvs

mutual

/-- JSON value parser.  `fuel` bounds recursion depth; every recursive call
happens strictly after consuming at least one input character, so a fuel of
`input.length + 1` can never run out (on any input, valid or not). -/
def parseJVal : Nat → List Char → Option (JVal × List Char)
  | 0, _ => none
  | fuel + 1, s =>
    match s with
    | 'n' :: 'u' :: 'l' :: 'l' :: r => some (.null, r)
    | 't' :: 'r' :: 'u' :: 'e' :: r => some (.bool true, r)
    | 'f' :: 'a' :: 'l' :: 's' :: 'e' :: r => some (.bool false, r)
    | '"' :: r => do
      let (cs, rest) ← parseJString (r.length + 1) r
      some (.str cs, rest)
    | '[' :: r =>
      (match jws r with
       | ']' :: rest => some (.arr [], rest)
       | r2 => do
         let (xs, rest) ← parseJArrItems fuel r2
         some (.arr xs, rest))
    | '{' :: r =>
      (match jws r with
       | '}' :: rest => some (.obj [], rest)
       | r2 => do
         let (kvs, rest) ← parseJObjItems fuel r2
         some (.obj kvs, rest))
    | _ => do
      let (q, rest) ← parseJNum s
      some (.num q, rest)

def parseJArrItems : Nat → List Char → Option (List JVal × List Char)
  | 0, _ => none
  | fuel + 1, s => do
    let (v, rest) ← parseJVal fuel s
    match jws rest with
    | ',' :: r2 => do
      let (xs, rest2) ← parseJArrItems fuel (jws r2)
      some (v :: xs, rest2)
    | ']' :: r2 => some ([v], r2)
    | _ => none

def parseJObjItems : Nat → List Char → Option (List (List Char × JVal) × List Char)
  | 0, _ => none
  | fuel + 1, s =>
    match s with
    | '"' :: r => do
      let (k, rest) ← parseJString (r.length + 1) r
      match jws rest with
      | ':' :: r2 => do
        let (v, rest2) ← parseJVal fuel (jws r2)
        match jws rest2 with
        | ',' :: r3 => do
          let (kvs, rest3) ← parseJObjItems fuel (jws r3)
          some (objPrepend k v kvs, rest3)
        | '}' :: r3 => some ([(k, v)], r3)
        | _ => none
      | _ => none
    | _ => none

end

/-- Model of `json.loads` (raises `JSONDecodeError` ⇒ `.error ()`). -/
def json_loads (s : List Char) : Except Unit JVal :=
  match parseJVal (s.length + 1) (jws s) with
  | some (v, rest) => if jws rest = [] then .ok v else .error ()
  | none => .error ()

-- ## Python dynamic-typing helpers

inductive PyErr where
  | typeError : PyErr
  | attributeError : PyErr
  | valueError : PyErr
  | keyError : PyErr
  | netError : List Char → PyErr
  deriving DecidableEq, Repr

/-- `str(e)` for an exception, as used inside f-strings.  For the built-in
type errors the precise message text is approximated (no claim depends on
it); network errors carry their message. -/
def errMsg : PyErr → List Char
  | .typeError => "TypeError".toList
  | .attributeError => "AttributeError".toList
  | .valueError => "ValueError".toList
  | .keyError => "KeyError".toList
  | .netError m => m

/-- Python truthiness of a JSON value. -/
def pyTruthy : JVal → Bool
  | .null => false
  | .bool b => b
  | .num q => q != 0
  | .str s => !s.isEmpty
  | .arr l => !l.isEmpty
  | .obj l => !l.isEmpty

/-- Python `x or y`. -/
def pyOr (x y : JVal) : JVal := if pyTruthy x then x else y

/-- `v.get(k, d)` — raises `AttributeError` unless `v` is a dict (in
particular on `None`, the source of the uncaught error in
`fetch_github_issue`). -/
def jget (v : JVal) (k : List Char) (d : JVal) : Except PyErr JVal :=
  match v with
  | .obj kvs => .ok ((objFind kvs k).getD d)
  | _ => .error .attributeError

/-- `for x in v`: lists yield elements, strings their characters, dicts
their keys; other values raise `TypeError`. -/
def pyIter : JVal → Except PyErr (List JVal)
  | .arr l => .ok l
  | .str s => .ok (s.map (fun c => .str [c]))
  | .obj kvs => .ok (kvs.map (fun p => .str p.1))
  | _ => .error .typeError

def pyLen : JVal → Except PyErr Nat
  | .arr l => .ok l.length
  | .str s => .ok s.length
  | .obj kvs => .ok kvs.length
  | _ => .error .typeError

mutual

/-- Python `==` on JSON values.  Numbers and bools compare numerically
(`True == 1`).  Dict comparison is modelled order-sensitively; the scripts
never compare two dicts with `==` (the only needles are the string `"id"`
and event-name strings), so this corner is unreachable. -/
def pyEq : JVal → JVal → Bool
  | .null, .null => true
  | .bool a, .bool b => a == b
  | .bool a, .num q => (if a then (1 : ℚ) else 0) == q
  | .num q, .bool a => q == (if a then (1 : ℚ) else 0)
  | .num a, .num b => a == b
  | .str a, .str b => a == b
  | .arr a, .arr b => pyEqL a b
  | .obj a, .obj b => jvalBEqKV a b
  | _, _ => false

def pyEqL : List JVal → List JVal → Bool
  | [], [] => true
  | x :: xs, y :: ys => pyEq x y && pyEqL xs ys
  | _, _ => false

end

/-- Is `needle` a leading segment of `hay`? -/
def leadsWith : List Char → List Char → Bool
  | [], _ => true
  | _ :: _, [] => false
  | a :: as, b :: bs => a == b && leadsWith as bs

/-- Python substring test `needle in hay`. -/
def subStr (needle hay : List Char) : Bool :=
  match hay with
  | [] => needle.isEmpty
  | _ :: t => leadsWith needle hay || subStr needle t

/-- Python `needle in container`. -/
def pyContains (needle container : JVal) : Except PyErr Bool :=
  match container with
  | .obj kvs => .ok (kvs.any (fun p => pyEq (.str p.1) needle))
  | .arr xs => .ok (xs.any (fun x => pyEq x needle))
  | .str s =>
    match needle with
    | .str n => .ok (subStr n s)
    | _ => .error .typeError
  | _ => .error .typeError

/-- Python `container[key]` for a string key (the only subscript the
scripts perform on JSON data is `item["id"]`). -/
def pySubscript (container key : JVal) : Except PyErr JVal :=
  match container, key with
  | .obj kvs, .str k =>
    (match objFind kvs k with
     | some v => .ok v
     | none => .error .keyError)
  | _, _ => .error .typeError

/-- Python `x[:n]` as applied by the scripts to strings/lists; slicing any
other value raises `TypeError`. -/
def pySlice (v : JVal) (n : Nat) : Except PyErr JVal :=
  match v with
  | .str s => .ok (.str (s.take n))
  | .arr l => .ok (.arr (l.take n))
  | _ => .error .typeError

def pyHashable : JVal → Bool
  | .arr _ => false
  | .obj _ => false
  | _ => true

/-- `float(s)` for a string: optional sign, `digits[.digits]`, `.digits`,
optional exponent, surrounded by optional whitespace.  `inf`/`nan`
keywords and PEP-515 underscores are not representable/modelled and give
`none` (a `ValueError` in the caller); no claim touches them. -/
def parsePyFloat (s0 : List Char) : Option ℚ :=
  let s := pyStrip s0
  let (sign, s1) : ℚ × List Char :=
    match s with
    | '+' :: r => (1, r)
    | '-' :: r => (-1, r)
    | _ => (1, s)
  let (ids, r1) := takeDigits s1
  let mantRes : Option (ℚ × List Char) :=
    match r1 with
    | '.' :: r2 =>
      let (fds, r3) := takeDigits r2
      if ids.isEmpty ∧ fds.isEmpty then none
      else some ((digitsToNat ids : ℚ) + (digitsToNat fds : ℚ) / (10 : ℚ) ^ fds.length, r3)
    | _ =>
      if ids.isEmpty then none else some ((digitsToNat ids : ℚ), r1)
  match mantRes with
  | none => none
  | some (mant, rest) =>
    match rest with
    | [] => some (sign * mant)
    | e :: r =>
      if e = 'e' ∨ e = 'E' then
        let (sg, r2) : Int × List Char :=
          match r with
          | '+' :: r3 => (1, r3)
          | '-' :: r3 => (-1, r3)
          | _ => (1, r)
        let (ds, r3) := takeDigits r2
        if ds.isEmpty ∨ ¬ r3.isEmpty then none
        else some (sign * mant * (10 : ℚ) ^ ((sg * (digitsToNat ds : Int))))
      else none

/-- Python `float(v)`. -/
def pyFloat : JVal → Except PyErr ℚ
  | .num q => .ok q
  | .bool b => .ok (if b then 1 else 0)
  | .str s =>
    (match parsePyFloat s with
     | some q => .ok q
     | none => .error .valueError)
  | _ => .error .typeError

-- ## relevance_gate.py

/-- A candidate link `{"url", "anchor", "context"}` as constructed by
`chain_tracker._get_candidates` (all three fields are strings there). -/
structure Cand where
  url : List Char
  anchor : List Char
  context : List Char
  deriving DecidableEq, Repr

/-- A scored candidate as produced by `score_candidates`: the candidate's
fields plus `score` and `reason` (`reason` is whatever JSON value the
scorer returned, a plain string on the fail-open paths). -/
structure SCand where
  url : List Char
  anchor : List Char
  context : List Char
  score : ℚ
  reason : JVal
  deriving DecidableEq

def joinSep (sep : List Char) : List (List Char) → List Char
  | [] => []
  | [x] => x
  | x :: xs => x ++ sep ++ joinSep sep xs

/-- The numbered candidate lines of `_build_prompt`. -/
def candLines (i : Nat) : List Cand → List (List Char)
  | [] => []
  | c :: cs =>
    let anchor := if c.anchor.isEmpty then c.context.take 60 else c.anchor
    let context := c.context.take 150
    (natReprL i ++ ". anchor=\"".toList ++ anchor ++ "\" url=".toList ++ c.url
      ++ "\n   context=\"".toList ++ context ++ "\"".toList) :: candLines (i + 1) cs

/-- `_build_prompt` from relevance_gate.py. -/
def build_prompt (query knowledge_state : List Char) (candidates : List Cand) :
    List Char :=
  let candidates_text := joinSep ['\n'] (candLines 1 candidates)
  "You are a research assistant evaluating whether web links are worth following.\n\nOriginal query: ".toList
  ++ query
  ++ "\n\nWhat we already know: ".toList
  ++ (if knowledge_state.isEmpty then "Nothing yet.".toList else knowledge_state)
  ++ "\n\nCandidate links to evaluate:\n".toList
  ++ candidates_text
  ++ "\n\nFor each candidate, score 0.0-1.0 how likely following this link will provide NEW, RELEVANT information to answer the original query.\n- Score > 0.7: definitely follow (directly relevant, likely new info)\n- Score 0.4-0.7: maybe follow (somewhat relevant or unclear)\n- Score < 0.4: skip (irrelevant, duplicate, or noise)\n\nRespond with ONLY a JSON array, no explanation outside JSON:\n[\n  \x7b\x7b\"id\": 1, \"score\": 0.9, \"reason\": \"one sentence\"\x7d\x7d,\n  \x7b\x7b\"id\": 2, \"score\": 0.2, \"reason\": \"one sentence\"\x7d\x7d,\n  ...\n]".toList

/-- Everything after the first newline (`"\n".join(text.split("\n")[1:])`). -/
def afterFirstNL : List Char → List Char
  | [] => []
  | '\n' :: r => r
  | _ :: r => afterFirstNL r

/-- The code-fence stripping done by `score_candidates` before `json.loads`:
strip, and if the text starts with three backticks drop the first line,
right-strip backticks and strip again. -/
def stripFences (raw : List Char) : List Char :=
  let text := pyStrip raw
  if leadsWith ("```".toList) text then
    pyStrip (rstripChar (Char.ofNat 96) (afterFirstNL text))
  else text

def smapInsert (m : List (JVal × JVal)) (k v : JVal) : List (JVal × JVal) :=
  if m.any (fun p => pyEq p.1 k) then
    m.map (fun p => if pyEq p.1 k then (p.1, v) else p)
  else m ++ [(k, v)]

/-- `{item["id"]: item for item in scores if "id" in item}` — the membership
test, the subscript and the hashability of the key can each raise. -/
def buildScoreMap : List JVal → List (JVal × JVal) → Except PyErr (List (JVal × JVal))
  | [], m => .ok m
  | item :: rest, m => do
    let b ← pyContains (.str ("id".toList)) item
    if b then do
      let k ← pySubscript item (.str ("id".toList))
      if pyHashable k then buildScoreMap rest (smapInsert m k item)
      else .error .typeError
    else buildScoreMap rest m

/-- `score_map.get(key, default)` with Python `==` key matching. -/
def smapGet (m : List (JVal × JVal)) (k : JVal) (d : JVal) : JVal :=
  match m.find? (fun p => pyEq p.1 k) with
  | some p => p.2
  | none => d

/-- The merge loop of `score_candidates` (lines 196–205): for the `i`-th
candidate (1-based) take the score-map entry for `i` (default `{}`), convert
its `"score"` (default 0.5) with `float`, and keep the candidate when the
score is at least the threshold. -/
def mergeLoop (smap : List (JVal × JVal)) (threshold : ℚ) :
    Nat → List Cand → Except PyErr (List SCand)
  | _, [] => .ok []
  | i, c :: cs => do
    let s := smapGet smap (.num i) (.obj [])
    let sv ← jget s ("score".toList) (.num (1 / 2))
    let score ← pyFloat sv
    if threshold ≤ score then do
      let rv ← jget s ("reason".toList) (.str [])
      let rest ← mergeLoop smap threshold (i + 1) cs
      .ok ({ url := c.url, anchor := c.anchor, context := c.context,
             score := score, reason := rv } :: rest)
    else mergeLoop smap threshold (i + 1) cs

/-- One insertion step of the stable descending sort: `x` goes in front of
the first element whose score is not larger, so earlier elements stay ahead
of later equal-score ones. -/
def insertScoreDesc (x : SCand) : List SCand → List SCand
  | [] => [x]
  | y :: ys => if x.score < y.score then y :: insertScoreDesc x ys else x :: y :: ys

/-- Model of `result.sort(key=lambda x: x["score"], reverse=True)`.  Python's
sort is stable and a stable descending sort of a list is unique, so this
stable insertion sort computes exactly it (stability and sortedness are
proved below). -/
def sortScoreDesc : List SCand → List SCand
  | [] => []
  | x :: xs => insertScoreDesc x (sortScoreDesc xs)

def failOpen (reason : List Char) (c : Cand) : SCand :=
  { url := c.url, anchor := c.anchor, context := c.context,
    score := 1 / 2, reason := .str reason }

/-- `score_candidates` from relevance_gate.py.  The reasoning service is an
oracle `llm` from the built prompt to either an exception (`.error`, the
`except Exception` branch) or the raw response text; credential loading is
environment interaction outside this model (the spec scopes it out). -/
def score_candidates (query : List Char) (candidates : List Cand)
    (knowledge_state : List Char) (threshold : ℚ)
    (llm : List Char → Except (List Char) (List Char)) : Except PyErr (List SCand) :=
  if candidates.isEmpty then .ok []
  else
    let prompt := build_prompt query knowledge_state candidates
    match llm prompt with
    | .error _ => .ok (candidates.map (failOpen ("LLM unavailable".toList)))
    | .ok raw =>
      match json_loads (stripFences raw) with
      | .error _ => .ok (candidates.map (failOpen ("parse error".toList)))
      | .ok scores => do
        let items ← pyIter scores
        let smap ← buildScoreMap items []
        let result ← mergeLoop smap threshold 1 candidates
        .ok (sortScoreDesc result)

-- ## fetch_thread.py — reference extraction
--
-- The `_REF_PATTERNS` regexes are hand-compiled to deterministic scanners.
-- `re.finditer` semantics: left-to-right scan, non-overlapping matches,
-- alternatives tried in pattern order with backtracking.  For these
-- particular patterns the character classes exclude the follow-up literals
-- (`/`, `#`, digits…), so greedy runs never need to backtrack and each
-- pattern reduces to the first-success order of a fixed alternative list;
-- this is noted per scanner below.

structure Ref where
  rtype : List Char
  url : List Char
  context : List Char
  deriving DecidableEq, Repr

/-- The lookahead class `[\s).,;:!?']` used after `#123`/`GH-123`/SHA
matches (`Char.ofNat 39` is the apostrophe). -/
def lookPunct (c : Char) : Bool :=
  isPyWs c || c == ')' || c == '.' || c == ',' || c == ';' || c == ':' ||
  c == '!' || c == '?' || c == Char.ofNat 39

def lookOk : List Char → Bool
  | [] => true
  | c :: _ => lookPunct c

/-- The class `[a-zA-Z0-9_.-]` of owner/repo characters. -/
def isRepoChar (c : Char) : Bool :=
  (c.isAlpha && c.toNat < 128) || c.isDigit || c == '_' || c == '.' || c == '-'

def isWsParen (c : Char) : Bool := isPyWs c || c == '('

def isHexLower (c : Char) : Bool := c.isDigit || ('a' ≤ c ∧ c ≤ 'f')

/-- Generic `re.finditer` scanner: attempt a match at each position, on
success emit `(start, length, groups)` and continue after the match.  Every
matcher below consumes at least one character on success, so a fuel of
`text.length + 1` can never run out. -/
def scanP {α : Type} (tryM : Option Char → List Char → Option (Nat × α)) :
    Nat → Nat → Option Char → List Char → List (Nat × Nat × α)
  | 0, _, _, _ => []
  | _ + 1, _, _, [] => []
  | fuel + 1, pos, prev, s@(c :: rest) =>
    match tryM prev s with
    | some (len, g) =>
      if len = 0 then scanP tryM fuel (pos + 1) (some c) rest
      else (pos, len, g) :: scanP tryM fuel (pos + len) ((s.take len).getLast?) (s.drop len)
    | none => scanP tryM fuel (pos + 1) (some c) rest

/-- `text[max(0, start-40) : min(len, end+40)].replace("\n", " ").strip()`. -/
def mkCtx (text : List Char) (start len_ : Nat) : List Char :=
  let a := start - 40
  let b := min text.length (start + len_ + 40)
  pyStrip (((text.drop a).take (b - a)).map (fun c => if c = '\n' then ' ' else c))

/-- Boundary `(?:^|[\s(])`: the zero-width `^` alternative (start of text or
after a newline — the patterns run with `re.MULTILINE`) is tried first, then
a single consumed `[\s(]` character. -/
def tryBoundary {α : Type} (body : List Char → Option (Nat × α))
    (prev : Option Char) (s : List Char) : Option (Nat × α) :=
  let alt1 : Option (Nat × α) :=
    if prev = none ∨ prev = some '\n' then body s else none
  match alt1 with
  | some r => some r
  | none =>
    match s with
    | c :: rest =>
      if isWsParen c then (body rest).map (fun p => (p.1 + 1, p.2)) else none
    | [] => none

/-- Optional group `(?:([a-zA-Z0-9_.-]+/[a-zA-Z0-9_.-]+))?` when followed by
`#`: both runs are maximal (the class excludes `/` and `#`, so no shorter
run can be followed by the required literal — no backtracking). -/
def tryRepoAtHash (s : List Char) : Option (Nat × List Char) :=
  let r1 := s.takeWhile isRepoChar
  if r1.isEmpty then none
  else
    match s.drop r1.length with
    | '/' :: rest2 =>
      let r2 := rest2.takeWhile isRepoChar
      if r2.isEmpty then none
      else
        match rest2.drop r2.length with
        | '#' :: _ => some (r1.length + 1 + r2.length, r1 ++ '/' :: r2)
        | _ => none
    | _ => none

/-- Body of pattern `issue_ref` after the boundary: optional repo group,
`#`, digits, punctuation-or-end lookahead. -/
def issueRefBody (s : List Char) : Option (Nat × (Option (List Char) × List Char)) :=
  let (repoLen, repoOpt) :=
    match tryRepoAtHash s with
    | some (n, repo) => (n, some repo)
    | none => (0, (none : Option (List Char)))
  match s.drop repoLen with
  | '#' :: rest =>
    let ds := rest.takeWhile Char.isDigit
    if ds.isEmpty then none
    else if lookOk (rest.drop ds.length) then
      some (repoLen + 1 + ds.length, (repoOpt, ds))
    else none
  | _ => none

def issueRefTry (prev : Option Char) (s : List Char) :
    Option (Nat × (Option (List Char) × List Char)) :=
  tryBoundary issueRefBody prev s

/-- Body of pattern `gh_ref`: literal `GH-`, digits, lookahead. -/
def ghRefBody (s : List Char) : Option (Nat × List Char) :=
  match s with
  | 'G' :: 'H' :: '-' :: rest =>
    let ds := rest.takeWhile Char.isDigit
    if ds.isEmpty then none
    else if lookOk (rest.drop ds.length) then some (3 + ds.length, ds) else none
  | _ => none

def ghRefTry (prev : Option Char) (s : List Char) : Option (Nat × List Char) :=
  tryBoundary ghRefBody prev s

def tryLitAt (lit s : List Char) : Option (List Char) :=
  if leadsWith lit s then some (s.drop lit.length) else none

def leadsWithCI : List Char → List Char → Bool
  | [], _ => true
  | _ :: _, [] => false
  | a :: as, b :: bs => a.toLower == b.toLower && leadsWithCI as bs

def tryLitCI (lit s : List Char) : Option (List Char) :=
  if leadsWithCI lit s then some (s.drop lit.length) else none

/-- `https?://` — greedy optional `s`, then `://`. -/
def tryHttpScheme (s : List Char) : Option (Nat × List Char) :=
  match tryLitAt ("http".toList) s with
  | none => none
  | some r =>
    match r with
    | 's' :: r2 =>
      (match tryLitAt ("://".toList) r2 with
       | some rr => some (8, rr)
       | none =>
         match tryLitAt ("://".toList) r with
         | some rr => some (7, rr)
         | none => none)
    | _ =>
      match tryLitAt ("://".toList) r with
      | some rr => some (7, rr)
      | none => none

/-- Case-insensitive `https?://` (used inside the `(?i)` duplicate-URL
pattern). -/
def tryHttpSchemeCI (s : List Char) : Option (Nat × List Char) :=
  match tryLitCI ("http".toList) s with
  | none => none
  | some r =>
    match r with
    | c :: r2 =>
      if c.toLower = 's' then
        match tryLitCI ("://".toList) r2 with
        | some rr => some (8, rr)
        | none =>
          match tryLitCI ("://".toList) r with
          | some rr => some (7, rr)
          | none => none
      else
        match tryLitCI ("://".toList) r with
        | some rr => some (7, rr)
        | none => none
    | [] => none

/-- `owner/repo` part of a GitHub URL when followed by `/`. -/
def tryRepoAtSlash (s : List Char) : Option (Nat × List Char) :=
  let r1 := s.takeWhile isRepoChar
  if r1.isEmpty then none
  else
    match s.drop r1.length with
    | '/' :: rest2 =>
      let r2 := rest2.takeWhile isRepoChar
      if r2.isEmpty then none
      else
        match rest2.drop r2.length with
        | '/' :: _ => some (r1.length + 1 + r2.length, r1 ++ '/' :: r2)
        | _ => none
    | _ => none

def firstAltCI (alts : List (List Char)) (s : List Char) : Option (List Char × List Char) :=
  match alts with
  | [] => none
  | a :: rest =>
    match tryLitCI a s with
    | some r => some (s.take a.length, r)  -- matched text keeps original case
    | none => firstAltCI rest s

def firstAlt (alts : List (List Char)) (s : List Char) : Option (List Char × List Char) :=
  match alts with
  | [] => none
  | a :: rest =>
    match tryLitAt a s with
    | some r => some (a, r)
    | none => firstAlt rest s

/-- Pattern `github_url`:
`https?://github\.com/(repo)/(issues|pull|discussions)/(\d+)(?:#[^\s)]*)?`
(no boundary or lookahead).  Groups: repo, url type, number. -/
def githubUrlTry (_ : Option Char) (s : List Char) :
    Option (Nat × (List Char × List Char × List Char)) := do
  let (schemeLen, r1) ← tryHttpScheme s
  let r2 ← tryLitAt ("github.com/".toList) r1
  let (repoLen, repo) ← tryRepoAtSlash r2
  let r3 := r2.drop (repoLen + 1)  -- past the '/' after the repo
  let (utype, r4) ← firstAlt ["issues".toList, "pull".toList, "discussions".toList] r3
  match r4 with
  | '/' :: r5 =>
    let ds := r5.takeWhile Char.isDigit
    if ds.isEmpty then none
    else
      -- optional fragment `(?:#[^\s)]*)?` (greedy; part of the match span)
      let fragLen :=
        match r5.drop ds.length with
        | '#' :: r6 => 1 + (r6.takeWhile (fun c => ¬ isPyWs c ∧ c ≠ ')')).length
        | _ => 0
      some (schemeLen + 11 + repoLen + 1 + utype.length + 1 + ds.length + fragLen,
            (repo, utype, ds))
  | _ => none

/-- Pattern `commit_url`: `https?://github\.com/(repo)/commit/([0-9a-f]{7,40})`.
A maximal hex run longer than 40 lets the bounded repetition take exactly 40
characters; shorter than 7 fails. -/
def commitUrlTry (_ : Option Char) (s : List Char) :
    Option (Nat × (List Char × List Char)) := do
  let (schemeLen, r1) ← tryHttpScheme s
  let r2 ← tryLitAt ("github.com/".toList) r1
  let (repoLen, repo) ← tryRepoAtSlash r2
  let r3 := r2.drop (repoLen + 1)
  let r4 ← tryLitAt ("commit/".toList) r3
  let hx := r4.takeWhile isHexLower
  if hx.length < 7 then none
  else
    let sha := hx.take 40
    some (schemeLen + 11 + repoLen + 1 + 7 + sha.length, (repo, sha))

/-- Body of pattern `full_sha`: exactly 40 lowercase-hex characters followed
by the punctuation lookahead (a 41st hex character makes both the `{40}`
repetition's continuation and the lookahead fail). -/
def fullShaBody (s : List Char) : Option (Nat × List Char) :=
  let hx := s.takeWhile isHexLower
  if hx.length = 40 ∧ lookOk (s.drop 40) then some (40, hx) else none

def fullShaTry (prev : Option Char) (s : List Char) : Option (Nat × List Char) :=
  tryBoundary fullShaBody prev s

/-- `word1 \s+ word2` (case-insensitive words, `\s+` maximal — no shorter
run can be followed by the second word since whitespace is not a letter). -/
def tryWordWsWord (w1 w2 s : List Char) : Option (Nat × List Char) :=
  match tryLitCI w1 s with
  | none => none
  | some r =>
    let ws := r.takeWhile isPyWs
    if ws.isEmpty then none
    else
      match tryLitCI w2 (r.drop ws.length) with
      | none => none
      | some r2 => some (w1.length + ws.length + w2.length, r2)

/-- Tail `\s+#(\d+)` shared by the duplicate/related patterns. -/
def hashNumTail (s : List Char) : Option (Nat × List Char) :=
  let ws := s.takeWhile isPyWs
  if ws.isEmpty then none
  else
    match s.drop ws.length with
    | '#' :: rest =>
      let ds := rest.takeWhile Char.isDigit
      if ds.isEmpty then none else some (ws.length + 1 + ds.length, ds)
    | _ => none

/-- Run the alternative prefixes in backtracking order, taking the first
whose continuation also matches. -/
def altsThen {α : Type} (alts : List (List Char → Option (Nat × List Char)))
    (tail : List Char → Option (Nat × α)) (s : List Char) : Option (Nat × (List Char × α)) :=
  match alts with
  | [] => none
  | a :: rest =>
    match a s with
    | some (n1, r1) =>
      (match tail r1 with
       | some (n2, g) => some (n1 + n2, (s.take n1, g))
       | none => altsThen rest tail s)
    | none => altsThen rest tail s

/-- Pattern `duplicate`:
`(?i)(?:duplicate\s+of|duplicates?|dup(?:licate)?(?:\s+of)?)\s+#(\d+)`.
Backtracking order of the alternation (with the greedy `s?`/optional groups
expanded): `duplicate\s+of`, `duplicates`, `duplicate` (twice, deduplicated),
`dup\s+of`, `dup`. -/
def duplicateTry (_ : Option Char) (s : List Char) : Option (Nat × List Char) :=
  (altsThen
    [ fun t => tryWordWsWord ("duplicate".toList) ("of".toList) t
    , fun t => (tryLitCI ("duplicates".toList) t).map (fun r => (10, r))
    , fun t => (tryLitCI ("duplicate".toList) t).map (fun r => (9, r))
    , fun t => tryWordWsWord ("dup".toList) ("of".toList) t
    , fun t => (tryLitCI ("dup".toList) t).map (fun r => (3, r)) ]
    hashNumTail s).map (fun p => (p.1, p.2.2))

/-- Tail `\s+https?://github\.com/(repo)/(issues|pull)/(\d+)` of the
`duplicate_url` pattern (everything case-insensitive under `(?i)`; the
captured groups keep the original text). -/
def dupUrlTail (s : List Char) : Option (Nat × (List Char × List Char × List Char)) := do
  let ws := s.takeWhile isPyWs
  if ws.isEmpty then none
  else do
    let (schemeLen, r1) ← tryHttpSchemeCI (s.drop ws.length)
    let r2 ← tryLitCI ("github.com/".toList) r1
    let (repoLen, repo) ← tryRepoAtSlash r2
    let r3 := r2.drop (repoLen + 1)
    let (utype, r4) ← firstAltCI ["issues".toList, "pull".toList] r3
    match r4 with
    | '/' :: r5 =>
      let ds := r5.takeWhile Char.isDigit
      if ds.isEmpty then none
      else some (ws.length + schemeLen + 11 + repoLen + 1 + utype.length + 1 + ds.length,
                 (repo, utype, ds))
    | _ => none

/-- Pattern `duplicate_url`:
`(?i)(?:duplicate\s+of|duplicates?)\s+https?://github\.com/(repo)/(issues|pull)/(\d+)`. -/
def duplicateUrlTry (_ : Option Char) (s : List Char) :
    Option (Nat × (List Char × List Char × List Char)) :=
  (altsThen
    [ fun t => tryWordWsWord ("duplicate".toList) ("of".toList) t
    , fun t => (tryLitCI ("duplicates".toList) t).map (fun r => (10, r))
    , fun t => (tryLitCI ("duplicate".toList) t).map (fun r => (9, r)) ]
    dupUrlTail s).map (fun p => (p.1, p.2.2))

/-- Pattern `related_ref`:
`(?i)(?:see\s+also|related(?:\s+to)?|fixes|closes|resolves|refs?)\s+#(\d+)`. -/
def relatedRefTry (_ : Option Char) (s : List Char) : Option (Nat × List Char) :=
  (altsThen
    [ fun t => tryWordWsWord ("see".toList) ("also".toList) t
    , fun t => tryWordWsWord ("related".toList) ("to".toList) t
    , fun t => (tryLitCI ("related".toList) t).map (fun r => (7, r))
    , fun t => (tryLitCI ("fixes".toList) t).map (fun r => (5, r))
    , fun t => (tryLitCI ("closes".toList) t).map (fun r => (6, r))
    , fun t => (tryLitCI ("resolves".toList) t).map (fun r => (8, r))
    , fun t => (tryLitCI ("refs".toList) t).map (fun r => (4, r))
    , fun t => (tryLitCI ("ref".toList) t).map (fun r => (3, r)) ]
    hashNumTail s).map (fun p => (p.1, p.2.2))

def isUrlBodyChar (c : Char) : Bool :=
  ¬ isPyWs c ∧ c ≠ '<' ∧ c ≠ '>' ∧ c ≠ '[' ∧ c ≠ ']' ∧ c ≠ '(' ∧ c ≠ ')'

def isUrlTermChar (c : Char) : Bool :=
  c == ')' || isPyWs c || c == '.' || c == ',' || c == ';' || c == ':' ||
  c == '!' || c == '?' || c == Char.ofNat 39 || c == '"'

/-- The lazy `[^\s<>\[\]()]+?` with lookahead `[)\s.,;:!?'"]|$`: the shortest
non-empty body such that the next character terminates (or input ends). -/
def lazyUrlLen : List Char → Nat → Option Nat
  | [], k => if k = 0 then none else some k
  | c :: rest, k =>
    if k ≠ 0 ∧ isUrlTermChar c then some k
    else if isUrlBodyChar c then lazyUrlLen rest (k + 1)
    else none

/-- Pattern `external_url`:
`(?<!\S)(https?://(?!github\.com)[^\s<>\[\]()]+?)(?=[)\s.,;:!?'\"]|$)`.
The lookbehind requires start-of-text or whitespace (a parenthesis does
not qualify, unlike the `[\s(]` boundaries above).  Group 1 is the whole
matched URL including the scheme. -/
def externalUrlTry (prev : Option Char) (s : List Char) : Option (Nat × List Char) :=
  let behindOk := match prev with
    | none => true
    | some c => isPyWs c
  if behindOk then
    match tryHttpScheme s with
    | none => none
    | some (schemeLen, rest) =>
      if leadsWith ("github.com".toList) rest then none
      else
        match lazyUrlLen rest 0 with
        | some k => some (schemeLen + k, s.take (schemeLen + k))
        | none => none
  else none

def imgExts : List (List Char) :=
  ["png".toList, "jpg".toList, "jpeg".toList, "gif".toList, "svg".toList,
   "ico".toList, "webp".toList]

def isImageAt (s : List Char) : Bool :=
  match s with
  | '.' :: rest =>
    imgExts.any (fun e =>
      match tryLitCI e rest with
      | some r => r.isEmpty || r.take 1 = ['?']
      | none => false)
  | _ => false

/-- `re.search(r'\.(png|jpg|jpeg|gif|svg|ico|webp)(\?|$)', url, re.I)`. -/
def isImageUrl : List Char → Bool
  | [] => false
  | s@(_ :: t) => isImageAt s || isImageUrl t

def ghIssueUrl (repo num : List Char) : List Char :=
  "https://github.com/".toList ++ repo ++ "/issues/".toList ++ num

def ghTypedUrl (repo utype num : List Char) : List Char :=
  "https://github.com/".toList ++ repo ++ '/' :: utype ++ '/' :: num

def ghCommitUrl (repo sha : List Char) : List Char :=
  "https://github.com/".toList ++ repo ++ "/commit/".toList ++ sha

/-- The `_add` closure of `extract_refs`: dedup on the URL with trailing
slashes stripped, first occurrence wins.  State: (refs so far, seen set). -/
def addRef (st : List Ref × List (List Char)) (rtype url ctx : List Char) :
    List Ref × List (List Char) :=
  let canon := canonU url
  if canon ∈ st.2 then st else (st.1 ++ [⟨rtype, url, ctx⟩], canon :: st.2)

/-- One dispatch step shared by the repo-context patterns
(`issue_ref` uses its own group-or-context logic below). -/
def refsPassFold {α : Type}
    (handle : (List Ref × List (List Char)) → Nat × Nat × α → (List Ref × List (List Char)))
    (ms : List (Nat × Nat × α)) (st : List Ref × List (List Char)) :
    List Ref × List (List Char) :=
  ms.foldl handle st

def issueRefHandle (text repo_context : List Char)
    (st : List Ref × List (List Char)) (m : Nat × Nat × (Option (List Char) × List Char)) :
    List Ref × List (List Char) :=
  let ctx := mkCtx text m.1 m.2.1
  let repo := m.2.2.1.getD repo_context
  if repo.isEmpty then st
  else addRef st ("issue".toList) (ghIssueUrl repo m.2.2.2) ctx

def ghRefHandle (text repo_context : List Char)
    (st : List Ref × List (List Char)) (m : Nat × Nat × List Char) :
    List Ref × List (List Char) :=
  let ctx := mkCtx text m.1 m.2.1
  if repo_context.isEmpty then st
  else addRef st ("issue".toList) (ghIssueUrl repo_context m.2.2) ctx

def githubUrlHandle (text : List Char)
    (st : List Ref × List (List Char)) (m : Nat × Nat × (List Char × List Char × List Char)) :
    List Ref × List (List Char) :=
  let ctx := mkCtx text m.1 m.2.1
  let repo := m.2.2.1
  let utype := m.2.2.2.1
  let num := m.2.2.2.2
  let rtype :=
    if utype = "issues".toList then "issue".toList
    else if utype = "pull".toList then "pr".toList
    else if utype = "discussions".toList then "discussion".toList
    else "issue".toList
  addRef st rtype (ghTypedUrl repo utype num) ctx

def commitUrlHandle (text : List Char)
    (st : List Ref × List (List Char)) (m : Nat × Nat × (List Char × List Char)) :
    List Ref × List (List Char) :=
  let ctx := mkCtx text m.1 m.2.1
  addRef st ("commit".toList) (ghCommitUrl m.2.2.1 m.2.2.2) ctx

def fullShaHandle (text repo_context : List Char)
    (st : List Ref × List (List Char)) (m : Nat × Nat × List Char) :
    List Ref × List (List Char) :=
  let ctx := mkCtx text m.1 m.2.1
  if repo_context.isEmpty then st
  else addRef st ("commit".toList) (ghCommitUrl repo_context m.2.2) ctx

def duplicateHandle (text repo_context : List Char)
    (st : List Ref × List (List Char)) (m : Nat × Nat × List Char) :
    List Ref × List (List Char) :=
  let ctx := mkCtx text m.1 m.2.1
  if repo_context.isEmpty then st
  else addRef st ("duplicate".toList) (ghIssueUrl repo_context m.2.2) ctx

def duplicateUrlHandle (text : List Char)
    (st : List Ref × List (List Char)) (m : Nat × Nat × (List Char × List Char × List Char)) :
    List Ref × List (List Char) :=
  let ctx := mkCtx text m.1 m.2.1
  addRef st ("duplicate".toList) (ghTypedUrl m.2.2.1 m.2.2.2.1 m.2.2.2.2) ctx

def relatedRefHandle (text repo_context : List Char)
    (st : List Ref × List (List Char)) (m : Nat × Nat × List Char) :
    List Ref × List (List Char) :=
  let ctx := mkCtx text m.1 m.2.1
  if repo_context.isEmpty then st
  else addRef st ("related".toList) (ghIssueUrl repo_context m.2.2) ctx

def externalUrlHandle (text : List Char)
    (st : List Ref × List (List Char)) (m : Nat × Nat × List Char) :
    List Ref × List (List Char) :=
  let ctx := mkCtx text m.1 m.2.1
  if isImageUrl m.2.2 then st
  else addRef st ("url".toList) m.2.2 ctx

/-- `extract_refs` from fetch_thread.py: run the ten `_REF_PATTERNS` in
order over the text, dispatching each match exactly as the Python handler
does. -/
def extract_refs (text repo_context : List Char) : List Ref :=
  if text.isEmpty then []
  else
    let fuel := text.length + 1
    let st0 : List Ref × List (List Char) := ([], [])
    let st1 := refsPassFold (issueRefHandle text repo_context)
                 (scanP issueRefTry fuel 0 none text) st0
    let st2 := refsPassFold (ghRefHandle text repo_context)
                 (scanP ghRefTry fuel 0 none text) st1
    let st3 := refsPassFold (githubUrlHandle text)
                 (scanP githubUrlTry fuel 0 none text) st2
    let st4 := refsPassFold (commitUrlHandle text)
                 (scanP commitUrlTry fuel 0 none text) st3
    let st5 := refsPassFold (fullShaHandle text repo_context)
                 (scanP fullShaTry fuel 0 none text) st4
    let st6 := refsPassFold (duplicateHandle text repo_context)
                 (scanP duplicateTry fuel 0 none text) st5
    let st7 := refsPassFold (duplicateUrlHandle text)
                 (scanP duplicateUrlTry fuel 0 none text) st6
    let st8 := refsPassFold (relatedRefHandle text repo_context)
                 (scanP relatedRefTry fuel 0 none text) st7
    let st9 := refsPassFold (externalUrlHandle text)
                 (scanP externalUrlTry fuel 0 none text) st8
    st9.1

/-- `extract_refs` as called on a dynamically-typed `all_text` value: a
falsy value returns `[]` (the `if not text` guard), a truthy non-string
raises `TypeError` inside `re.finditer`. -/
def extract_refs_py (text : JVal) (repo_context : List Char) : Except PyErr (List Ref) :=
  if pyTruthy text then
    match text with
    | .str s => .ok (extract_refs s repo_context)
    | _ => .error .typeError
  else .ok []

-- ## fetch_thread.py — GitHub issue fetcher

/-- `str(v)` / `repr(v)` for f-string interpolation.  Exact only for the
string/bool/None cases the scripts normally see; numeric and container
rendering approximates Python's (e.g. `1/2` instead of `0.5`), which is
reachable only when the GitHub API returns non-string fields that end up
inside f-strings — no claim depends on that text. -/
def ratReprL (q : ℚ) : List Char :=
  if q.den = 1 then intReprL q.num
  else intReprL q.num ++ '/' :: natReprL q.den

mutual

def pyStr : JVal → List Char
  | .null => "None".toList
  | .bool true => "True".toList
  | .bool false => "False".toList
  | .num q => ratReprL q
  | .str s => s
  | .arr l => '[' :: joinSep (", ".toList) (pyReprList l) ++ [']']
  | .obj kvs => Char.ofNat 123 :: joinSep (", ".toList) (pyReprKVs kvs) ++ [Char.ofNat 125]

def pyRepr : JVal → List Char
  | .str s => Char.ofNat 39 :: s ++ [Char.ofNat 39]
  | .null => "None".toList
  | .bool true => "True".toList
  | .bool false => "False".toList
  | .num q => ratReprL q
  | .arr l => '[' :: joinSep (", ".toList) (pyReprList l) ++ [']']
  | .obj kvs => Char.ofNat 123 :: joinSep (", ".toList) (pyReprKVs kvs) ++ [Char.ofNat 125]

def pyReprList : List JVal → List (List Char)
  | [] => []
  | x :: xs => pyRepr x :: pyReprList xs

def pyReprKVs : List (List Char × JVal) → List (List Char)
  | [] => []
  | (k, v) :: xs =>
    (Char.ofNat 39 :: k ++ Char.ofNat 39 :: ':' :: ' ' :: pyRepr v) :: pyReprKVs xs

end

structure GComment where
  author : JVal
  date : JVal
  body : JVal
  reactions : List (List Char × JVal)
  deriving DecidableEq

/-- The Thread Document built by `fetch_github_issue`.  Fields copied from
raw API JSON keep their dynamic type (`JVal`); constructed fields are
strings. -/
structure GDoc where
  url : List Char
  gtype : List Char
  title : JVal := .str []
  body : JVal := .str []
  state : JVal := .str []
  labels : List JVal := []
  comments : List GComment := []
  refs : List Ref := []
  metadata : List (List Char × JVal) := []
  error : Option (List Char) := none
  deriving DecidableEq

/-- The four GitHub endpoints `fetch_github_issue` can hit; the network is
an oracle from requests to either an exception message or a
`(status, body)` pair (HTTPError is already folded into the status by
`_http_get`). -/
inductive GhReq where
  | issue : GhReq
  | comments : Nat → Nat → GhReq
  | reviews : GhReq
  | timeline : GhReq
  deriving DecidableEq

structure HResp where
  status : Nat
  text : List Char
  json : JVal
  deriving DecidableEq

/-- Model of `_http_get`: network exceptions propagate; otherwise the body
is offered along with `json.loads(body)`, which is `None` both on parse
failure and on a literal `null` body (exactly as in Python). -/
def http_get (r : Except (List Char) (Nat × List Char)) : Except PyErr HResp :=
  match r with
  | .error m => .error (.netError m)
  | .ok (s, t) =>
    .ok ⟨s, t, match json_loads t with | .ok v => v | .error _ => .null⟩

def reactionKeys : List (List Char) :=
  ["+1".toList, "-1".toList, "laugh".toList, "hooray".toList,
   "confused".toList, "heart".toList, "rocket".toList, "eyes".toList]

/-- `reactions.get(k, 0) > 0`: numeric and bool compare; any other type
raises `TypeError` (Python cannot order str/None/containers against int). -/
def pyGtZero : JVal → Except PyErr Bool
  | .num q => .ok (0 < q)
  | .bool b => .ok b
  | _ => .error .typeError

/-- `_extract_reactions`. -/
def extract_reactions (r : JVal) : Except PyErr (List (List Char × JVal)) :=
  reactionKeys.foldlM (fun acc k => do
    let v ← jget r k (.num 0)
    let b ← pyGtZero v
    pure (if b then acc ++ [(k, v)] else acc)) []

/-- Python `a + b` (string/list concatenation, numeric addition; mixed
types raise `TypeError` — the source of the raise when a non-string
comment body meets `all_text += "\n" + body`). -/
def pyAdd (a b : JVal) : Except PyErr JVal :=
  match a, b with
  | .str x, .str y => .ok (.str (x ++ y))
  | .arr x, .arr y => .ok (.arr (x ++ y))
  | .num x, .num y => .ok (.num (x + y))
  | .num x, .bool b => .ok (.num (x + (if b then 1 else 0)))
  | .bool b, .num x => .ok (.num ((if b then 1 else 0) + x))
  | .bool x, .bool y => .ok (.num ((if x then 1 else 0) + (if y then 1 else 0)))
  | _, _ => .error .typeError

/-- One comment dict of the comments page loop (lines 315–322). -/
def mkGComment (c : JVal) : Except PyErr (GComment × JVal) := do
  let body0 ← jget c ("body".toList) (.str [])
  let body := pyOr body0 (.str [])
  let user ← jget c ("user".toList) (.obj [])
  let login ← jget user ("login".toList) (.str [])
  let date ← jget c ("created_at".toList) (.str [])
  let reJ ← jget c ("reactions".toList) (.obj [])
  let reacts ← extract_reactions reJ
  .ok (⟨login, date, body, reacts⟩, body)

/-- The inner `for c in comments` loop; `remaining = max_comments - fetched`
(≥ 1 on entry), returns the number of comments consumed. -/
def procComments : List JVal → Nat → List GComment → JVal →
    Except PyErr (List GComment × JVal × Nat)
  | [], _, acc, t => .ok (acc, t, 0)
  | c :: cs, remaining, acc, t => do
    let (gc, body) ← mkGComment c
    let nl ← pyAdd (.str ['\n']) body
    let t2 ← pyAdd t nl
    if remaining ≤ 1 then .ok (acc ++ [gc], t2, 1)
    else do
      let (acc2, t3, k) ← procComments cs (remaining - 1) (acc ++ [gc]) t2
      .ok (acc2, t3, k + 1)

/-- The paginated `while fetched < max_comments` loop (lines 296–330).  A
network error or HTTP ≥ 400 on a page breaks out (logged to stderr); an
empty/falsy page breaks; a short page breaks after processing.  Each
continuing iteration consumes at least one of `remaining`, so the fuel
`max_comments + 1` can never run out (the fuel-exhausted branch is
unreachable and returns like a break). -/
def pagesLoop (net : GhReq → Except (List Char) (Nat × List Char)) (per_page : Nat) :
    Nat → Nat → Nat → List GComment → JVal → Except PyErr (List GComment × JVal)
  | 0, _, _, acc, t => .ok (acc, t)
  | fuel + 1, page, remaining, acc, t =>
    if remaining = 0 then .ok (acc, t)
    else
      match http_get (net (.comments page per_page)) with
      | .error _ => .ok (acc, t)
      | .ok r =>
        if 400 ≤ r.status then .ok (acc, t)
        else
          let comments := r.json
          if pyTruthy comments then do
            let items ← pyIter comments
            let (acc2, t2, consumed) ← procComments items remaining acc t
            let len ← pyLen comments
            if len < per_page then .ok (acc2, t2)
            else pagesLoop net per_page fuel (page + 1) (remaining - consumed) acc2 t2
          else .ok (acc, t)

def fmtReviewBody (state bodyText : List Char) : List Char :=
  "[Review: ".toList ++ state ++ "] ".toList ++ bodyText

/-- The fields of one PR review (lines 343–350); `none` when the stripped
body is empty (no append), `.error` when a dynamic type error occurs
(swallowed by the surrounding `except: pass`, aborting the rest). -/
def reviewFields (rv : JVal) : Except PyErr (Option (GComment × JVal)) := do
  let body0 ← jget rv ("body".toList) (.str [])
  let body := pyOr body0 (.str [])
  match body with
  | .str bs =>
    if (pyStrip bs).isEmpty then .ok none
    else do
      let user ← jget rv ("user".toList) (.obj [])
      let login ← jget user ("login".toList) (.str [])
      let date ← jget rv ("submitted_at".toList) (.str [])
      let state ← jget rv ("state".toList) (.str ("COMMENTED".toList))
      .ok (some (⟨login, date, .str (fmtReviewBody (pyStr state) bs), []⟩, body))
  | _ => .error .attributeError

/-- The `for review in r["json"]` loop.  The whole block sits inside
`try … except Exception: pass`, and `result["comments"].append` mutates the
result before `all_text +=` can raise — so an exception keeps the appends
made so far and silently stops. -/
def procReviews : List JVal → List GComment → JVal → List GComment × JVal
  | [], acc, t => (acc, t)
  | rv :: rest, acc, t =>
    match reviewFields rv with
    | .error _ => (acc, t)
    | .ok none => procReviews rest acc t
    | .ok (some (gc, body)) =>
      let acc2 := acc ++ [gc]
      match (do
        let nl ← pyAdd (.str ['\n']) body
        pyAdd t nl : Except PyErr JVal) with
      | .error _ => (acc2, t)
      | .ok t2 => procReviews rest acc2 t2

/-- The PR-review phase (lines 333–353): fetch reviews, and if the status
is OK and the body truthy, process them; every exception is absorbed. -/
def reviewsPhase (net : GhReq → Except (List Char) (Nat × List Char))
    (acc : List GComment) (t : JVal) : List GComment × JVal :=
  match http_get (net .reviews) with
  | .error _ => (acc, t)
  | .ok r =>
    if r.status < 400 ∧ pyTruthy r.json then
      match pyIter r.json with
      | .error _ => (acc, t)
      | .ok items => procReviews items acc t
    else (acc, t)

/-- One timeline event (lines 388–418).  Dynamic type errors here are NOT
caught (the `try` covers only the HTTP call), so they propagate out of
`fetch_github_issue`. -/
def timelineEvent (repo_ctx : List Char) (refs : List Ref) (event : JVal) :
    Except PyErr (List Ref) := do
  let etype ← jget event ("event".toList) (.str [])
  if pyEq etype (.str ("cross-referenced".toList)) then do
    let src0 ← jget event ("source".toList) (.obj [])
    let source ← jget src0 ("issue".toList) (.obj [])
    if pyTruthy source then do
      let repoObj ← jget source ("repository".toList) (.obj [])
      let srcRepo ← jget repoObj ("full_name".toList) (.str repo_ctx)
      let srcNum ← jget source ("number".toList) .null
      let prv ← jget source ("pull_request".toList) .null
      let srcTypePr := pyTruthy prv
      if pyTruthy srcNum then do
        let title ← jget source ("title".toList) (.str [])
        let url := "https://github.com/".toList ++ pyStr srcRepo ++ '/' ::
          (if srcTypePr then "pull".toList else "issues".toList) ++ '/' :: pyStr srcNum
        let ctx := "Referenced by ".toList ++ pyStr srcRepo ++ '#' :: pyStr srcNum
          ++ ": ".toList ++ pyStr title
        .ok (refs ++ [⟨"cross_ref_".toList ++
          (if srcTypePr then "pr".toList else "issue".toList), url, ctx⟩])
      else .ok refs
    else .ok refs
  else if pyEq etype (.str ("marked_as_duplicate".toList)) then .ok refs
  else if pyEq etype (.str ("referenced".toList)) || pyEq etype (.str ("connected".toList)) then do
    let commit ← jget event ("commit_id".toList) .null
    if pyTruthy commit then do
      let url := "https://github.com/".toList ++ repo_ctx ++ "/commit/".toList ++ pyStr commit
      let sliced ← pySlice commit 7
      let ctx := "Referenced in commit ".toList ++ pyStr sliced
      .ok (refs ++ [⟨"commit".toList, url, ctx⟩])
    else .ok refs
  else .ok refs

/-- The final ref dedup of `_enrich_with_timeline` (first occurrence wins,
key is the URL with trailing slashes stripped). -/
def dedupRefs : List Ref → List (List Char) → List Ref
  | [], _ => []
  | r :: rest, seen =>
    let key := canonU r.url
    if key ∈ seen then dedupRefs rest seen
    else r :: dedupRefs rest (key :: seen)

/-- `_enrich_with_timeline`: on a timeline fetch failure or non-200 status
it returns the refs UNCHANGED (in particular: no dedup); on success the
events are processed (possibly raising) and the result deduplicated. -/
def enrich_with_timeline (net : GhReq → Except (List Char) (Nat × List Char))
    (repo_ctx : List Char) (refs0 : List Ref) : Except PyErr (List Ref) :=
  match http_get (net .timeline) with
  | .error _ => .ok refs0
  | .ok r =>
    if r.status ≠ 200 then .ok refs0
    else do
      let events ← pyIter r.json
      let refs ← events.foldlM (fun acc ev => timelineEvent repo_ctx acc ev) refs0
      .ok (dedupRefs refs [])

/-- The initial `result` dict of `fetch_github_issue` (lines 246–256). -/
def baseGDoc (owner repo : List Char) (number : Int) : GDoc :=
  { url := "https://github.com/".toList ++ owner ++ '/' :: repo
           ++ "/issues/".toList ++ intReprL number,
    gtype := "github_issue".toList }

/-- `fetch_github_issue` from fetch_thread.py.  Only the primary issue
request is guarded by `try`/status checks; every later field access trusts
the JSON shape, so unexpected shapes (including a success-status non-JSON
body, which makes `issue` `None`) raise out of the function. -/
def fetch_github_issue (owner repo : List Char) (number : Int)
    (max_comments : Nat) (net : GhReq → Except (List Char) (Nat × List Char)) :
    Except PyErr GDoc :=
  let result := baseGDoc owner repo number
  let repo_ctx := owner ++ '/' :: repo
  match http_get (net .issue) with
  | .error e =>
    .ok { result with error := some ("Failed to fetch issue: ".toList ++ errMsg e) }
  | .ok r =>
    if 400 ≤ r.status then
      .ok { result with error := some ("GitHub API ".toList ++ natReprL r.status
              ++ ": ".toList ++ r.text.take 200) }
    else do
      let issue := r.json
      let pr ← jget issue ("pull_request".toList) .null
      let result := if pyTruthy pr then
          { result with
            gtype := "github_pr".toList,
            url := "https://github.com/".toList ++ owner ++ '/' :: repo
                   ++ "/pull/".toList ++ intReprL number }
        else result
      let title ← jget issue ("title".toList) (.str [])
      let bodyv0 ← jget issue ("body".toList) (.str [])
      let bodyv := pyOr bodyv0 (.str [])
      let statev ← jget issue ("state".toList) (.str [])
      let pr2 ← jget issue ("pull_request".toList) (.obj [])
      let merged ← jget pr2 ("merged_at".toList) .null
      let statev := if pyTruthy merged then JVal.str ("merged".toList) else statev
      let labelsJ ← jget issue ("labels".toList) (.arr [])
      let labelItems ← pyIter labelsJ
      let labels ← labelItems.mapM (fun l => jget l ("name".toList) (.str []))
      let user ← jget issue ("user".toList) (.obj [])
      let author ← jget user ("login".toList) (.str [])
      let created ← jget issue ("created_at".toList) (.str [])
      let updated ← jget issue ("updated_at".toList) (.str [])
      let ccount ← jget issue ("comments".toList) (.num 0)
      let reactionsJ ← jget issue ("reactions".toList) (.obj [])
      let reacts ← extract_reactions reactionsJ
      let metadata := [("author".toList, author), ("created".toList, created),
        ("updated".toList, updated), ("comment_count".toList, ccount),
        ("reactions".toList, JVal.obj reacts)]
      let per_page := min max_comments 100
      let (gcomments, allText) ← pagesLoop net per_page (max_comments + 1) 1
        max_comments [] bodyv
      let (gcomments2, allText2) :=
        if result.gtype = "github_pr".toList then reviewsPhase net gcomments allText
        else (gcomments, allText)
      let refs ← extract_refs_py allText2 repo_ctx
      let refs2 ← enrich_with_timeline net repo_ctx refs
      .ok { result with
            title := title,
            body := bodyv,
            state := statev,
            labels := labels,
            comments := gcomments2,
            metadata := metadata,
            refs := refs2 }

-- ## chain_tracker.py

/-- An enriched link `{"url", "anchor", "context"}` as produced by
`_extract_links_from_html` (all string fields). -/
structure Link where
  url : List Char
  anchor : List Char
  context : List Char
  deriving DecidableEq, Repr

/-- The parts of a fetched Thread Document that `track` and
`_get_candidates` read.  Every fetcher sets `type` to a string and builds
`links`/`refs` as lists of all-string dicts; `title`/`body`/`comments` are
copied from raw platform JSON and stay dynamically typed. -/
structure FDoc where
  dtype : List Char
  title : JVal
  body : JVal
  comments : List JVal
  links : List Link
  refs : List Ref
  deriving DecidableEq

/-- The links loop of `_get_candidates` (lines 77–85): keep non-empty URLs
not yet seen; returns the candidates and the final seen set. -/
def linksLoop : List Link → List (List Char) → List Cand × List (List Char)
  | [], seen => ([], seen)
  | l :: ls, seen =>
    if l.url ≠ [] ∧ l.url ∉ seen then
      let (cs, seen2) := linksLoop ls (l.url :: seen)
      (⟨l.url, l.anchor, l.context⟩ :: cs, seen2)
    else linksLoop ls seen

/-- The refs loop of `_get_candidates` (lines 88–96): the ref's `type`
becomes the candidate's `anchor`. -/
def refsLoop : List Ref → List (List Char) → List Cand
  | [], _ => []
  | r :: rs, seen =>
    if r.url ≠ [] ∧ r.url ∉ seen then
      ⟨r.url, r.rtype, r.context⟩ :: refsLoop rs (r.url :: seen)
    else refsLoop rs seen

/-- `_get_candidates`: links first, then refs, deduplicated by EXACT url
string (the seen set is shared across the two loops). -/
def get_candidates (d : FDoc) : List Cand :=
  let (cs, seen) := linksLoop d.links []
  cs ++ refsLoop d.refs seen

/-- A queue entry `(url, depth, score, reason)`.  `parentDepth` is a ghost
specification field recording the depth of the node whose expansion
enqueued this entry (`none` for seeds); it mirrors the `depth` argument of
`queue.append((c["url"], depth + 1, …))` and is not read by the loop. -/
structure TEntry where
  url : List Char
  depth : Nat
  score : ℚ
  reason : JVal
  parentDepth : Option Nat
  deriving DecidableEq

/-- A recorded crawl node (lines 141–150).  `parentDepth` is the ghost
field copied from the producing queue entry. -/
structure TNode where
  url : List Char
  depth : Nat
  ntype : List Char
  title : JVal
  body : JVal
  comments : List JVal
  score : ℚ
  reason : JVal
  parentDepth : Option Nat
  deriving DecidableEq

/-- Node construction (lines 141–150): body is `(body or "")[:2000]` (which
raises on truthy non-sliceable bodies), comments are capped to 10. -/
def mkTNode (e : TEntry) (d : FDoc) : Except PyErr TNode := do
  let b ← pySlice (pyOr d.body (.str [])) 2000
  .ok ⟨e.url, e.depth, d.dtype, d.title, b, d.comments.take 10, e.score, e.reason,
       e.parentDepth⟩

/-- The crawl environment: `fetch` models `fetch_thread.fetch_thread_url`
(its exceptions are caught by `track`); `know` models `_update_knowledge`,
whose reasoning-service call is wrapped in `try`/`except` with a textual
fallback, as a total oracle; `llm` is the relevance gate's reasoning-service
oracle as in `score_candidates`. -/
structure CrawlEnv where
  fetch : List Char → Except PyErr FDoc
  know : List Char → TNode → List Char
  llm : List Char → Except (List Char) (List Char)

/-- The crawl state.  `fetchLog` (the URLs passed to the fetcher, mirroring
the `[chain_tracker] … fetching:` trace), `gateCalls` (the candidate lists
passed to `score_candidates`) and `batchLog` (how many entries each node
enqueued) are ghost observation fields used only by the theorems. -/
structure TState where
  queue : List TEntry
  visited : List (List Char)
  nodes : List TNode
  knowledge : List Char
  fetchLog : List (List Char)
  gateCalls : List (List Cand)
  batchLog : List Nat

def initTState (seeds : List (List Char)) : TState :=
  { queue := seeds.map (fun u => ⟨u, 0, 1, .str ("seed".toList), none⟩),
    visited := [], nodes := [], knowledge := [],
    fetchLog := [], gateCalls := [], batchLog := [] }

/-- The `while queue:` loop of `track` (lines 123–179), fuel-indexed.  The
Python loop always terminates; the theorems below are safety properties
proved for every fuel, which covers in particular the terminating run.  A
dynamic type error in node construction or an uncaught `score_candidates`
exception aborts the loop, returning the state reached so far together
with the error. -/
def trackLoop (env : CrawlEnv) (query : List Char) (maxDepth : Nat)
    (threshold : ℚ) (maxPerLevel : Nat) :
    Nat → TState → TState × Option PyErr
  | 0, s => (s, none)
  | fuel + 1, s =>
    match s.queue with
    | [] => (s, none)
    | e :: rest =>
      let canon := canonU e.url
      if canon ∈ s.visited ∨ maxDepth < e.depth then
        trackLoop env query maxDepth threshold maxPerLevel fuel { s with queue := rest }
      else
        let s1 := { s with
          queue := rest,
          visited := canon :: s.visited,
          fetchLog := s.fetchLog ++ [e.url] }
        match env.fetch e.url with
        | .error _ => trackLoop env query maxDepth threshold maxPerLevel fuel s1
        | .ok d =>
          match mkTNode e d with
          | .error err => (s1, some err)
          | .ok node =>
            let s2 := { s1 with
              nodes := s1.nodes ++ [node],
              knowledge := env.know s1.knowledge node }
            if maxDepth ≤ e.depth then
              trackLoop env query maxDepth threshold maxPerLevel fuel s2
            else
              let cands := get_candidates d
              if cands.isEmpty then
                trackLoop env query maxDepth threshold maxPerLevel fuel s2
              else
                let cands20 := cands.take 20
                let s3 := { s2 with gateCalls := s2.gateCalls ++ [cands20] }
                match score_candidates query cands20 s2.knowledge threshold env.llm with
                | .error err => (s3, some err)
                | .ok scored =>
                  let batch := (scored.take maxPerLevel).map
                    (fun c => (⟨c.url, e.depth + 1, c.score, c.reason,
                                some node.depth⟩ : TEntry))
                  trackLoop env query maxDepth threshold maxPerLevel fuel
                    { s3 with
                      queue := s3.queue ++ batch,
                      batchLog := s3.batchLog ++ [batch.length] }

/-- `track` (the crawl entry point): run from the seed queue; the result
pairs the final state with an optional uncaught exception. -/
def track (env : CrawlEnv) (query : List Char) (seeds : List (List Char))
    (maxDepth : Nat) (threshold : ℚ) (maxPerLevel : Nat) (fuel : Nat) :
    TState × Option PyErr :=
  trackLoop env query maxDepth threshold maxPerLevel fuel (initTState seeds)

-- ## Spec-side definitions and helper lemmas

def toCandL (l : Link) : Cand := ⟨l.url, l.anchor, l.context⟩

def toCandR (r : Ref) : Cand := ⟨r.url, r.rtype, r.context⟩

/-- First-occurrence-wins dedup by exact URL string. -/
def dedupCands : List Cand → List (List Char) → List Cand
  | [], _ => []
  | c :: cs, seen =>
    if c.url ∈ seen then dedupCands cs seen
    else c :: dedupCands cs (c.url :: seen)

def seenAfter : List Cand → List (List Char) → List (List Char)
  | [], seen => seen
  | c :: cs, seen =>
    if c.url ∈ seen then seenAfter cs seen else seenAfter cs (c.url :: seen)

def candFilter (cs : List Cand) : List Cand := cs.filter (fun c => !c.url.isEmpty)

/-- The orchestrator's candidate list, stated the way the (amended) spec
describes it: links first, then refs (anchor defaulting to the ref type),
empty URLs dropped, deduplicated by exact URL string with the first
occurrence winning. -/
def candidates_spec (d : FDoc) : List Cand :=
  dedupCands (candFilter (d.links.map toCandL ++ d.refs.map toCandR)) []

theorem linksLoop_eq (ls : List Link) : ∀ seen,
    linksLoop ls seen =
      (dedupCands (candFilter (ls.map toCandL)) seen,
       seenAfter (candFilter (ls.map toCandL)) seen) := by
  induction ls with
  | nil => intro seen; simp [linksLoop, candFilter, dedupCands, seenAfter]
  | cons l ls ih =>
    intro seen
    by_cases hurl : l.url = []
    · have : (!(toCandL l).url.isEmpty) = false := by
        simp [toCandL, hurl]
      simp [linksLoop, hurl, candFilter, List.filter_cons, this, ih seen]
    · by_cases hseen : l.url ∈ seen
      · have : (!(toCandL l).url.isEmpty) = true := by
          simp [toCandL, List.isEmpty_iff, hurl]
        simp [linksLoop, hurl, hseen, candFilter, List.filter_cons, this,
          dedupCands, seenAfter, toCandL, ih seen]
      · have : (!(toCandL l).url.isEmpty) = true := by
          simp [toCandL, List.isEmpty_iff, hurl]
        simp [linksLoop, hurl, hseen, candFilter, List.filter_cons, this,
          dedupCands, seenAfter, toCandL, ih (l.url :: seen)]

theorem refsLoop_eq (rs : List Ref) : ∀ seen,
    refsLoop rs seen = dedupCands (candFilter (rs.map toCandR)) seen := by
  induction rs with
  | nil => intro seen; simp [refsLoop, candFilter, dedupCands]
  | cons r rs ih =>
    intro seen
    by_cases hurl : r.url = []
    · have : (!(toCandR r).url.isEmpty) = false := by simp [toCandR, hurl]
      simp [refsLoop, hurl, candFilter, List.filter_cons, this, ih seen]
    · by_cases hseen : r.url ∈ seen
      · have : (!(toCandR r).url.isEmpty) = true := by
          simp [toCandR, List.isEmpty_iff, hurl]
        simp [refsLoop, hurl, hseen, candFilter, List.filter_cons, this,
          dedupCands, toCandR, ih seen]
      · have : (!(toCandR r).url.isEmpty) = true := by
          simp [toCandR, List.isEmpty_iff, hurl]
        simp [refsLoop, hurl, hseen, candFilter, List.filter_cons, this,
          dedupCands, toCandR, ih (r.url :: seen)]

theorem dedupCands_append (a : List Cand) : ∀ (b : List Cand) seen,
    dedupCands (a ++ b) seen = dedupCands a seen ++ dedupCands b (seenAfter a seen) := by
  induction a with
  | nil => intro b seen; simp [dedupCands, seenAfter]
  | cons c cs ih =>
    intro b seen
    by_cases h : c.url ∈ seen
    · simp [dedupCands, seenAfter, h, ih]
    · simp [dedupCands, seenAfter, h, ih]

-- ## Claim C3

/-- C3 counterexample.  The claim says the candidate list "merges the
document's refs and links deduplicated by canonical URL (trailing slash
stripped), with refs included before links".  On a document whose one ref
and one link share a canonical URL (differing only in a trailing slash),
`_get_candidates` returns BOTH entries — so dedup is not by canonical URL —
and the link-derived entry comes first — so the order is links-then-refs,
not refs-then-links. -/
theorem C3_counterexample :
    get_candidates
      { dtype := "web_page".toList, title := .str [], body := .str [],
        comments := [],
        links := [⟨"https://a/".toList, "x".toList, "l".toList⟩],
        refs := [⟨"issue".toList, "https://a".toList, "r".toList⟩] } =
      [⟨"https://a/".toList, "x".toList, "l".toList⟩,
       ⟨"https://a".toList, "issue".toList, "r".toList⟩]
    ∧ canonU ("https://a/".toList) = canonU ("https://a".toList) := by
  constructor
  · rfl
  · rfl

/-- C3 amended: the candidate list built by `_get_candidates` merges the
document's LINKS first and then its refs, in discovery order, with empty
URLs dropped and deduplication by the EXACT URL string (first occurrence
wins); the orchestrator then caps the merged list to 20 entries before
scoring (the cap is proved as part of C7). -/
theorem C3_amended (d : FDoc) : get_candidates d = candidates_spec d := by
  have hf : candFilter (d.links.map toCandL ++ d.refs.map toCandR) =
      candFilter (d.links.map toCandL) ++ candFilter (d.refs.map toCandR) := by
    simp [candFilter]
  simp only [get_candidates, linksLoop_eq, refsLoop_eq, candidates_spec]
  rw [hf, dedupCands_append]

-- ## Claim C4

/-- C4 counterexample.  The claim says `extract_refs` on
`"See also #42 and duplicate of #7"` with `repo_context="a/b"` includes a
ref of type `related` for issue 42 and one of type `duplicate` for issue 7.
In fact the generic bare-`#N` pattern (`issue_ref`) runs first, registers
both URLs with type `issue`, and the URL-keyed first-occurrence-wins dedup
then drops the later `related`/`duplicate` matches: no ref of either type
appears in the output. -/
theorem C4_counterexample :
    ((extract_refs ("See also #42 and duplicate of #7".toList) ("a/b".toList)).all
      (fun ref => ref.rtype ≠ "related".toList ∧ ref.rtype ≠ "duplicate".toList)) = true := by
  decide

/-- C4 amended: on that input `extract_refs` returns exactly two refs, both
of type `issue` — one for `https://github.com/a/b/issues/42` and one for
`https://github.com/a/b/issues/7` — each carrying the whole (short) text as
context. -/
theorem C4_amended :
    extract_refs ("See also #42 and duplicate of #7".toList) ("a/b".toList) =
      [⟨"issue".toList, "https://github.com/a/b/issues/42".toList,
        "See also #42 and duplicate of #7".toList⟩,
       ⟨"issue".toList, "https://github.com/a/b/issues/7".toList,
        "See also #42 and duplicate of #7".toList⟩] := by
  decide

-- ## Claim C2

/-- C2 counterexample.  The claim says any response that cannot be parsed
into per-candidate scores fails open and never raises.  The response text
`"[1,2,3]"` is not per-candidate scores, yet the code only catches
`json.JSONDecodeError`: the text parses as a JSON array of ints, and the
merge comprehension then evaluates `"id" in 1`, raising `TypeError` out of
`score_candidates`. -/
theorem C2_counterexample :
    score_candidates ("q".toList) [⟨"u".toList, [], []⟩] [] (2 / 5)
      (fun _ => .ok ("[1,2,3]".toList)) = .error .typeError := by
  rfl

/-- C2 amended: the fail-open branch (score 0.5, reason "parse error",
every candidate kept) covers exactly the responses whose fence-stripped
text is NOT valid JSON; a response that is valid JSON but of an unexpected
shape can instead raise from the merge step (see the counterexample). -/
theorem C2_amended (q ks : List Char) (th : ℚ) (c : Cand) (cs : List Cand)
    (raw : List Char) (hparse : json_loads (stripFences raw) = .error ()) :
    score_candidates q (c :: cs) ks th (fun _ => .ok raw) =
      .ok ((c :: cs).map (failOpen ("parse error".toList)))
    ∧ ((c :: cs).map (failOpen ("parse error".toList))).length = (c :: cs).length := by
  constructor
  · simp [score_candidates, hparse]
  · simp

/-- C2 amended, witness. -/
theorem C2_amended_witness :
    json_loads (stripFences ("not json".toList)) = .error ()
    ∧ (score_candidates ("q".toList) [⟨"u".toList, [], []⟩] [] (2 / 5)
        (fun _ => .ok ("not json".toList)) =
        .ok ([(⟨"u".toList, [], []⟩ : Cand)].map (failOpen ("parse error".toList)))
      ∧ ([(⟨"u".toList, [], []⟩ : Cand)].map (failOpen ("parse error".toList))).length =
          [(⟨"u".toList, [], []⟩ : Cand)].length) :=
  ⟨rfl,
   C2_amended ("q".toList) [] (2 / 5) ⟨"u".toList, [], []⟩ [] ("not json".toList)
     rfl⟩

-- ## Claim C8

/-- C8 (confirmed): when the scoring-service call itself raises,
`score_candidates` returns every candidate (same length) with score 0.5
and reason "LLM unavailable"; and an empty candidate list returns `[]`
immediately for EVERY oracle, in particular without consulting the
service. -/
theorem C8_fail_open (q ks : List Char) (th : ℚ) (cands : List Cand) (e : List Char)
    (llm2 : List Char → Except (List Char) (List Char)) :
    score_candidates q cands ks th (fun _ => .error e) =
      .ok (cands.map (failOpen ("LLM unavailable".toList)))
    ∧ (cands.map (failOpen ("LLM unavailable".toList))).length = cands.length
    ∧ (cands.map (failOpen ("LLM unavailable".toList))).all
        (fun s => s.score == (1 : ℚ) / 2 && s.reason == JVal.str ("LLM unavailable".toList)) = true
    ∧ score_candidates q [] ks th llm2 = .ok [] := by
  refine ⟨?_, by simp, ?_, by simp [score_candidates]⟩
  · cases cands with
    | nil => simp [score_candidates]
    | cons c cs => simp [score_candidates]
  · simp [List.all_eq_true, failOpen]

-- ## Claim C1

/-- C1 counterexample.  The claim says the fetcher never raises past its
boundary, including on a non-JSON platform response.  When the issue
endpoint answers with a SUCCESS status but a non-JSON body, `r["json"]` is
`None`, and line 271's `issue.get("pull_request")` — outside any `try` —
raises `AttributeError` out of `fetch_github_issue` (and hence out of
`fetch_thread_url`, which dispatches to it without a handler). -/
theorem C1_counterexample :
    fetch_github_issue ("o".toList) ("r".toList) 1 100
      (fun _ => .ok (200, "hello".toList)) = .error .attributeError := by
  rfl

/-- C1 amended: for the failure classes the code does guard — a network
exception on the primary issue request, or an HTTP error status (≥ 400) —
`fetch_github_issue` returns the partially-populated document with safe
defaults and only `error` set, never raising; but a success-status response
whose body is not JSON (or JSON of an unexpected shape) raises an uncaught
exception past the fetcher boundary (see the counterexample). -/
theorem C1_amended (owner repo : List Char) (number : Int) (maxc : Nat)
    (net : GhReq → Except (List Char) (Nat × List Char))
    (h : (∃ m, net .issue = .error m) ∨
         (∃ st tx, net .issue = .ok (st, tx) ∧ 400 ≤ st)) :
    ∃ msg, fetch_github_issue owner repo number maxc net =
      .ok { baseGDoc owner repo number with error := some msg } := by
  rcases h with ⟨m, hm⟩ | ⟨st, tx, hok, hge⟩
  · exact ⟨"Failed to fetch issue: ".toList ++ m, by
      simp [fetch_github_issue, http_get, hm, errMsg]⟩
  · exact ⟨"GitHub API ".toList ++ natReprL st ++ ": ".toList ++ tx.take 200, by
      simp [fetch_github_issue, http_get, hok, hge]⟩

/-- C1 amended, witness: a concrete network failure on the issue request. -/
theorem C1_amended_witness :
    ((fun (_ : GhReq) => (.error ("boom".toList) : Except (List Char) (Nat × List Char)))
        GhReq.issue = .error ("boom".toList))
    ∧ ∃ msg, fetch_github_issue ("o".toList) ("r".toList) 1 100
        (fun _ => .error ("boom".toList)) =
        .ok { baseGDoc ("o".toList) ("r".toList) 1 with error := some msg } :=
  ⟨rfl, C1_amended ("o".toList) ("r".toList) 1 100 _ (Or.inl ⟨"boom".toList, rfl⟩)⟩

-- ## Crawl invariants (C5, C6, C7)

/-- A queue entry is well-formed: seeds (no parent) have depth 0, children
have their parent node's depth plus one. -/
def entryOkB (e : TEntry) : Bool :=
  match e.parentDepth with
  | none => e.depth == 0
  | some d => e.depth == d + 1

/-- A recorded node is well-formed: its depth is the producing entry's
depth (seed ⇒ 0, child ⇒ parent's + 1) and never exceeds `maxd`. -/
def nodeOkB (maxd : Nat) (n : TNode) : Bool :=
  decide (n.depth ≤ maxd) &&
  (match n.parentDepth with
   | none => n.depth == 0
   | some d => n.depth == d + 1)

/-- The combined safety invariant of the crawl state. -/
def stInv (maxd k : Nat) (s : TState) : Prop :=
  (∀ e ∈ s.queue, entryOkB e = true) ∧
  (∀ n ∈ s.nodes, nodeOkB maxd n = true) ∧
  (s.fetchLog.map canonU).Nodup ∧
  (∀ u ∈ s.fetchLog, canonU u ∈ s.visited) ∧
  (∀ c ∈ s.gateCalls, c.length ≤ 20) ∧
  (∀ b ∈ s.batchLog, b ≤ k)

theorem mkTNode_fields (e : TEntry) (d : FDoc) (n : TNode)
    (h : mkTNode e d = .ok n) : n.depth = e.depth ∧ n.parentDepth = e.parentDepth := by
  unfold mkTNode at h
  cases hb : pySlice (pyOr d.body (.str [])) 2000 with
  | error err =>
    rw [hb] at h
    simp only [bind, Except.bind] at h
    exact Except.noConfusion h
  | ok b =>
    rw [hb] at h
    simp only [bind, Except.bind, Except.ok.injEq] at h
    subst h
    exact ⟨rfl, rfl⟩

theorem stInv_init (maxd k : Nat) (seeds : List (List Char)) :
    stInv maxd k (initTState seeds) := by
  refine ⟨?_, ?_, ?_, ?_, ?_, ?_⟩
  · intro e he
    simp only [initTState] at he
    obtain ⟨u, _, rfl⟩ := List.mem_map.mp he
    rfl
  · intro n hn
    simp [initTState] at hn
  · simp [initTState]
  · intro u hu
    simp [initTState] at hu
  · intro c hc
    simp [initTState] at hc
  · intro b hb
    simp [initTState] at hb

theorem trackLoop_inv (env : CrawlEnv) (q : List Char) (maxd : Nat) (th : ℚ)
    (k : Nat) : ∀ fuel s, stInv maxd k s →
    stInv maxd k (trackLoop env q maxd th k fuel s).1 := by
  intro fuel
  induction fuel with
  | zero => intro s h; simpa [trackLoop] using h
  | succ fuel ih =>
    intro s h
    rcases hQ : s.queue with _ | ⟨e, rest⟩
    · simpa [trackLoop, hQ] using h
    · obtain ⟨hq, hn, hnd, hvis, hgc, hbl⟩ := h
      have hqe : entryOkB e = true := hq e (by rw [hQ]; exact List.mem_cons_self _ _)
      have hqrest : ∀ x ∈ rest, entryOkB x = true := fun x hx =>
        hq x (by rw [hQ]; exact List.mem_cons_of_mem _ hx)
      by_cases hskip : canonU e.url ∈ s.visited ∨ maxd < e.depth
      · have hs' : stInv maxd k { s with queue := rest } :=
          ⟨hqrest, hn, hnd, hvis, hgc, hbl⟩
        simpa [trackLoop, hQ, hskip] using ih _ hs'
      · push_neg at hskip
        obtain ⟨hnv, hdep⟩ := hskip
        have hdle : ¬ maxd < e.depth := Nat.not_lt.mpr hdep
        have hnotin : canonU e.url ∉ s.fetchLog.map canonU := by
          intro hmem
          obtain ⟨u, hu, hcu⟩ := List.mem_map.mp hmem
          exact hnv (hcu ▸ hvis u hu)
        have nodup' : ((s.fetchLog ++ [e.url]).map canonU).Nodup := by
          rw [List.map_append]
          simp only [List.nodup_append, List.map_cons, List.map_nil]
          exact ⟨hnd, List.nodup_singleton _, by
            intro a ha hb
            simp only [List.mem_singleton] at hb
            exact hnotin (hb ▸ ha)⟩
        have vis' : ∀ u ∈ s.fetchLog ++ [e.url],
            canonU u ∈ canonU e.url :: s.visited := by
          intro u hu
          rcases List.mem_append.mp hu with h1 | h1
          · exact List.mem_cons_of_mem _ (hvis u h1)
          · simp only [List.mem_singleton] at h1
            subst h1
            exact List.mem_cons_self _ _
        have hs1 : stInv maxd k { s with
            queue := rest,
            visited := canonU e.url :: s.visited,
            fetchLog := s.fetchLog ++ [e.url] } :=
          ⟨hqrest, hn, nodup', vis', hgc, hbl⟩
        have hskipF : (canonU e.url ∈ s.visited ∨ maxd < e.depth) = False := by
          simp [hnv, hdle]
        cases hF : env.fetch e.url with
        | error err =>
          simpa [trackLoop, hQ, hskipF, hF] using ih _ hs1
        | ok d =>
          cases hN : mkTNode e d with
          | error err =>
            simpa [trackLoop, hQ, hskipF, hF, hN] using hs1
          | ok node =>
            obtain ⟨hnd1, hnd2⟩ := mkTNode_fields e d node hN
            have hnodeOk : nodeOkB maxd node = true := by
              unfold nodeOkB
              unfold entryOkB at hqe
              rw [hnd1, hnd2]
              simp only [Bool.and_eq_true, decide_eq_true_eq]
              exact ⟨hdep, hqe⟩
            have nodes' : ∀ n ∈ s.nodes ++ [node], nodeOkB maxd n = true := by
              intro n hn2
              rcases List.mem_append.mp hn2 with h1 | h1
              · exact hn n h1
              · simp only [List.mem_singleton] at h1
                subst h1
                exact hnodeOk
            have hs2 : stInv maxd k { s with
                queue := rest,
                visited := canonU e.url :: s.visited,
                fetchLog := s.fetchLog ++ [e.url],
                nodes := s.nodes ++ [node],
                knowledge := env.know
                  ({ s with
                     queue := rest,
                     visited := canonU e.url :: s.visited,
                     fetchLog := s.fetchLog ++ [e.url] } : TState).knowledge node } :=
              ⟨hqrest, nodes', nodup', vis', hgc, hbl⟩
            by_cases hdd : maxd ≤ e.depth
            · simpa [trackLoop, hQ, hskipF, hF, hN, hdd] using ih _ hs2
            · by_cases hce : (get_candidates d).isEmpty = true
              · simpa [trackLoop, hQ, hskipF, hF, hN, hdd, hce] using ih _ hs2
              · have gate' : ∀ c ∈ s.gateCalls ++ [(get_candidates d).take 20],
                    c.length ≤ 20 := by
                  intro c hc
                  rcases List.mem_append.mp hc with h1 | h1
                  · exact hgc c h1
                  · simp only [List.mem_singleton] at h1
                    subst h1
                    exact List.length_take_le _ _
                cases hS : score_candidates q ((get_candidates d).take 20)
                    (env.know ({ s with
                       queue := rest,
                       visited := canonU e.url :: s.visited,
                       fetchLog := s.fetchLog ++ [e.url] } : TState).knowledge node)
                    th env.llm with
                | error err =>
                  have hs3 : stInv maxd k { s with
                      queue := rest,
                      visited := canonU e.url :: s.visited,
                      fetchLog := s.fetchLog ++ [e.url],
                      nodes := s.nodes ++ [node],
                      knowledge := env.know
                        ({ s with
                           queue := rest,
                           visited := canonU e.url :: s.visited,
                           fetchLog := s.fetchLog ++ [e.url] } : TState).knowledge node,
                      gateCalls := s.gateCalls ++ [(get_candidates d).take 20] } :=
                    ⟨hqrest, nodes', nodup', vis', gate', hbl⟩
                  simpa [trackLoop, hQ, hskipF, hF, hN, hdd, hce, hS] using hs3
                | ok scored =>
                  have hbatchOk : ∀ x ∈ (scored.take k).map
                      (fun c => (⟨c.url, e.depth + 1, c.score, c.reason,
                                  some node.depth⟩ : TEntry)), entryOkB x = true := by
                    intro x hx
                    obtain ⟨c, _, rfl⟩ := List.mem_map.mp hx
                    simp [entryOkB, hnd1]
                  have queue' : ∀ x ∈ rest ++ (scored.take k).map
                      (fun c => (⟨c.url, e.depth + 1, c.score, c.reason,
                                  some node.depth⟩ : TEntry)), entryOkB x = true := by
                    intro x hx
                    rcases List.mem_append.mp hx with h1 | h1
                    · exact hqrest x h1
                    · exact hbatchOk x h1
                  have batchLen' : ∀ b ∈ s.batchLog ++ [((scored.take k).map
                      (fun c => (⟨c.url, e.depth + 1, c.score, c.reason,
                                  some node.depth⟩ : TEntry))).length], b ≤ k := by
                    intro b hb
                    rcases List.mem_append.mp hb with h1 | h1
                    · exact hbl b h1
                    · simp only [List.mem_singleton] at h1
                      subst h1
                      simp only [List.length_map]
                      exact List.length_take_le _ _
                  have hs4 : stInv maxd k { s with
                      queue := rest ++ (scored.take k).map
                        (fun c => (⟨c.url, e.depth + 1, c.score, c.reason,
                                    some node.depth⟩ : TEntry)),
                      visited := canonU e.url :: s.visited,
                      fetchLog := s.fetchLog ++ [e.url],
                      nodes := s.nodes ++ [node],
                      knowledge := env.know
                        ({ s with
                           queue := rest,
                           visited := canonU e.url :: s.visited,
                           fetchLog := s.fetchLog ++ [e.url] } : TState).knowledge node,
                      gateCalls := s.gateCalls ++ [(get_candidates d).take 20],
                      batchLog := s.batchLog ++ [((scored.take k).map
                        (fun c => (⟨c.url, e.depth + 1, c.score, c.reason,
                                    some node.depth⟩ : TEntry))).length] } :=
                    ⟨queue', nodes', nodup', vis', gate', batchLen'⟩
                  simpa [trackLoop, hQ, hskipF, hF, hN, hdd, hce, hS] using ih _ hs4

-- ## Claim C5

/-- C5 (confirmed): in every crawl run (any environment, seeds, parameters
and fuel), every recorded node produced from a seed entry (ghost
`parentDepth = none`) has depth 0, every node produced from a child entry
has depth equal to its parent node's depth plus one (the depth carried by
the queue entry that produced it), and no node's depth exceeds
`max_depth`. -/
theorem C5_depth_invariant (env : CrawlEnv) (query : List Char)
    (seeds : List (List Char)) (maxd : Nat) (th : ℚ) (k : Nat) (fuel : Nat) :
    ((track env query seeds maxd th k fuel).1.nodes.all (nodeOkB maxd)) = true := by
  have h := trackLoop_inv env query maxd th k fuel (initTState seeds)
    (stInv_init maxd k seeds)
  obtain ⟨_, hn, _, _, _, _⟩ := h
  rw [List.all_eq_true]
  exact fun n hn2 => hn n hn2

-- ## Claim C6

/-- C6 (confirmed): in every crawl run, the canonical forms (trailing
slashes stripped) of the URLs passed to the fetcher are pairwise distinct —
no URL is fetched twice, even when the same link is discovered repeatedly
or a seed is duplicated. -/
theorem C6_no_refetch (env : CrawlEnv) (query : List Char)
    (seeds : List (List Char)) (maxd : Nat) (th : ℚ) (k : Nat) (fuel : Nat) :
    ((track env query seeds maxd th k fuel).1.fetchLog.map canonU).Nodup :=
  (trackLoop_inv env query maxd th k fuel (initTState seeds)
    (stInv_init maxd k seeds)).2.2.1

-- ## Claim C7

/-- C7 (confirmed): in every crawl run, every candidate list passed to
`score_candidates` has at most 20 entries, and every per-node enqueued
batch has at most `max_per_level` entries, regardless of how many
candidates scored at or above the threshold. -/
theorem C7_caps (env : CrawlEnv) (query : List Char)
    (seeds : List (List Char)) (maxd : Nat) (th : ℚ) (k : Nat) (fuel : Nat) :
    (((track env query seeds maxd th k fuel).1.gateCalls.all
        (fun c => c.length ≤ 20)) = true)
    ∧ (((track env query seeds maxd th k fuel).1.batchLog.all
        (fun b => b ≤ k)) = true) := by
  have h := trackLoop_inv env query maxd th k fuel (initTState seeds)
    (stInv_init maxd k seeds)
  obtain ⟨_, _, _, _, hgc, hbl⟩ := h
  constructor
  · rw [List.all_eq_true]
    intro c hc
    simpa using hgc c hc
  · rw [List.all_eq_true]
    intro b hb
    simpa using hbl b hb

-- ## Stable sort lemmas

theorem insertScoreDesc_perm (x : SCand) (l : List SCand) :
    List.Perm (insertScoreDesc x l) (x :: l) := by
  induction l with
  | nil => simp [insertScoreDesc]
  | cons y ys ih =>
    by_cases h : x.score < y.score
    · simp only [insertScoreDesc, if_pos h]
      exact (ih.cons y).trans (List.Perm.swap x y ys)
    · simp [insertScoreDesc, h]

theorem sortScoreDesc_perm (l : List SCand) :
    List.Perm (sortScoreDesc l) l := by
  induction l with
  | nil => simp [sortScoreDesc]
  | cons x xs ih =>
    simpa [sortScoreDesc] using (insertScoreDesc_perm x (sortScoreDesc xs)).trans (ih.cons x)

/-- Descending sortedness as pairwise ordering. -/
def SortedDesc (l : List SCand) : Prop :=
  List.Pairwise (fun a b => b.score ≤ a.score) l

theorem insertScoreDesc_sorted (x : SCand) (l : List SCand)
    (h : SortedDesc l) : SortedDesc (insertScoreDesc x l) := by
  induction l with
  | nil => simp [insertScoreDesc, SortedDesc]
  | cons y ys ih =>
    rw [SortedDesc, List.pairwise_cons] at h
    obtain ⟨hy, hys⟩ := h
    by_cases hlt : x.score < y.score
    · rw [SortedDesc]
      simp only [insertScoreDesc, if_pos hlt]
      rw [List.pairwise_cons]
      constructor
      · intro z hz
        have hz1 := (insertScoreDesc_perm x ys).mem_iff.mp hz
        rcases List.mem_cons.mp hz1 with rfl | hz2
        · exact le_of_lt hlt
        · exact hy z hz2
      · exact ih hys
    · rw [SortedDesc]
      simp only [insertScoreDesc, if_neg hlt]
      rw [List.pairwise_cons]
      refine ⟨?_, ?_⟩
      · intro z hz
        rcases List.mem_cons.mp hz with rfl | hz2
        · exact le_of_not_lt hlt
        · exact le_trans (hy z hz2) (le_of_not_lt hlt)
      · rw [List.pairwise_cons]
        exact ⟨hy, hys⟩

theorem sortScoreDesc_sorted (l : List SCand) : SortedDesc (sortScoreDesc l) := by
  induction l with
  | nil => simp [sortScoreDesc, SortedDesc]
  | cons x xs ih => exact insertScoreDesc_sorted x _ ih

/-- Stability of the insertion step: for each fixed score value, the
subsequence of elements carrying that score is unchanged (the inserted
element only passes over strictly larger scores). -/
theorem filter_insertScoreDesc (x : SCand) (l : List SCand) (qq : ℚ) :
    (insertScoreDesc x l).filter (fun s => s.score == qq) =
      (x :: l).filter (fun s => s.score == qq) := by
  induction l with
  | nil => rfl
  | cons y ys ih =>
    by_cases hlt : x.score < y.score
    · have hyq : (y.score == qq) = true ∨ (y.score == qq) = false := by
        cases h : (y.score == qq) <;> simp
      simp only [insertScoreDesc, if_pos hlt]
      by_cases hxq : x.score = qq
      · have hyne : (y.score == qq) = false := by
          simp only [beq_eq_false_iff_ne, ne_eq]
          intro hc
          rw [hxq] at hlt
          rw [hc] at hlt
          exact lt_irrefl _ hlt
        simp only [List.filter_cons, hyne, ih]
        simp [List.filter_cons, hxq, hyne]
      · have hxne : (x.score == qq) = false := by
          simpa [beq_eq_false_iff_ne, ne_eq] using hxq
        simp only [List.filter_cons, ih]
        simp [List.filter_cons, hxne]
    · simp [insertScoreDesc, hlt]

/-- Stability of the sort: the elements at each score keep their pre-sort
(i.e. original candidate) order. -/
theorem filter_sortScoreDesc (l : List SCand) (qq : ℚ) :
    (sortScoreDesc l).filter (fun s => s.score == qq) =
      l.filter (fun s => s.score == qq) := by
  induction l with
  | nil => rfl
  | cons x xs ih =>
    simp only [sortScoreDesc]
    rw [filter_insertScoreDesc]
    simp only [List.filter_cons, ih]

-- ## Claim C10

/-- The candidate fields carried by a scored candidate. -/
def scandBase (s : SCand) : Cand := ⟨s.url, s.anchor, s.context⟩

theorem exceptBind_ok {ε α β : Type} {x : Except ε α} {f : α → Except ε β} {b : β}
    (h : (x >>= f) = .ok b) : ∃ a, x = .ok a ∧ f a = .ok b := by
  cases x with
  | error e => simp [Bind.bind, Except.bind] at h
  | ok a => exact ⟨a, rfl, by simpa [Bind.bind, Except.bind] using h⟩

theorem mergeLoop_base_sublist (smap : List (JVal × JVal)) (th : ℚ) :
    ∀ (cands : List Cand) (i : Nat) (res : List SCand),
      mergeLoop smap th i cands = .ok res → List.Sublist (res.map scandBase) cands := by
  intro cands
  induction cands with
  | nil =>
    intro i res h
    simp only [mergeLoop, Except.ok.injEq] at h
    subst h
    simp
  | cons c cs ih =>
    intro i res h
    simp only [mergeLoop] at h
    obtain ⟨sv, h1, h⟩ := exceptBind_ok h
    obtain ⟨score, h2, h⟩ := exceptBind_ok h
    by_cases h3 : th ≤ score
    · rw [if_pos h3] at h
      obtain ⟨rv, h4, h⟩ := exceptBind_ok h
      obtain ⟨rest, h5, h⟩ := exceptBind_ok h
      simp only [Except.ok.injEq] at h
      subst h
      simpa [scandBase] using List.Sublist.cons₂ c (ih (i + 1) rest h5)
    · rw [if_neg h3] at h
      exact List.Sublist.cons c (ih (i + 1) res h)

/-- C10 (confirmed): whenever `score_candidates` returns a result, each
output item originates from one input candidate — the multiset of base
`{url, anchor, context}` triples of the output is (a permutation of) a
sublist of the input candidates, each carried unchanged; the `SCand` record
type itself witnesses that only `score` and `reason` are added.  This
covers both fail-open branches and the successful merge path. -/
theorem C10_frame (q ks : List Char) (th : ℚ) (cands : List Cand)
    (llm : List Char → Except (List Char) (List Char)) (out : List SCand)
    (h : score_candidates q cands ks th llm = .ok out) :
    ∃ l, List.Sublist l cands ∧ List.Perm (out.map scandBase) l := by
  have hmap : ∀ (r : List Char), (cands.map (failOpen r)).map scandBase = cands := by
    intro r
    rw [List.map_map]
    have hfo : scandBase ∘ failOpen r = id := funext fun c => rfl
    rw [hfo, List.map_id]
  by_cases he : cands.isEmpty
  · have hc : cands = [] := List.isEmpty_iff.mp he
    subst hc
    simp only [score_candidates, List.isEmpty_nil, if_true, Except.ok.injEq] at h
    subst h
    exact ⟨[], List.nil_sublist _, by simp⟩
  · cases hllm : llm (build_prompt q ks cands) with
    | error e =>
      have heq : score_candidates q cands ks th llm =
          .ok (cands.map (failOpen ("LLM unavailable".toList))) := by
        simp [score_candidates, he, hllm]
      rw [heq] at h
      simp only [Except.ok.injEq] at h
      subst h
      exact ⟨cands, List.Sublist.refl _, by rw [hmap]⟩
    | ok raw =>
      cases hjs : json_loads (stripFences raw) with
      | error u =>
        have heq : score_candidates q cands ks th llm =
            .ok (cands.map (failOpen ("parse error".toList))) := by
          simp [score_candidates, he, hllm, hjs]
        rw [heq] at h
        simp only [Except.ok.injEq] at h
        subst h
        exact ⟨cands, List.Sublist.refl _, by rw [hmap]⟩
      | ok scores =>
        have heq : score_candidates q cands ks th llm =
            (do
              let items ← pyIter scores
              let smap ← buildScoreMap items []
              let result ← mergeLoop smap th 1 cands
              Except.ok (sortScoreDesc result)) := by
          simp [score_candidates, he, hllm, hjs]
        rw [heq] at h
        obtain ⟨items, hit, h⟩ := exceptBind_ok h
        obtain ⟨smap, hbm, h⟩ := exceptBind_ok h
        obtain ⟨res, hml, h⟩ := exceptBind_ok h
        simp only [Except.ok.injEq] at h
        subst h
        refine ⟨res.map scandBase, mergeLoop_base_sublist smap th cands 1 res hml, ?_⟩
        exact (sortScoreDesc_perm res).map scandBase

/-- C10 witness: a concrete successful run (service down ⇒ fail-open). -/
theorem C10_frame_witness :
    score_candidates ("q".toList) [⟨"u".toList, "a".toList, "c".toList⟩] []
        (1 / 2) (fun _ => .error ("x".toList)) =
      .ok ([⟨"u".toList, "a".toList, "c".toList⟩].map (failOpen ("LLM unavailable".toList)))
    ∧ ∃ l, List.Sublist l [(⟨"u".toList, "a".toList, "c".toList⟩ : Cand)]
        ∧ List.Perm
            ((([(⟨"u".toList, "a".toList, "c".toList⟩ : Cand)].map
                (failOpen ("LLM unavailable".toList))).map scandBase)) l :=
  ⟨rfl, C10_frame ("q".toList) [] (1 / 2)
    [⟨"u".toList, "a".toList, "c".toList⟩] (fun _ => .error ("x".toList)) _ rfl⟩

-- ## Claim C9 — spec-side definitions

/-- A well-shaped score item: a JSON object whose `"id"` (if present) is a
number, string or null — anything hashable that cannot cross-match an
integer position the way a bool can — and whose `"score"` (if present) is
a number. -/
def itemOkB (it : JVal) : Bool :=
  match it with
  | .obj kvs =>
    (match objFind kvs ("id".toList) with
     | none => true
     | some (.num _) => true
     | some (.str _) => true
     | some .null => true
     | some _ => false) &&
    (match objFind kvs ("score".toList) with
     | none => true
     | some (.num _) => true
     | some _ => false)
  | _ => false

/-- A well-shaped scoring response: a JSON array of well-shaped items. -/
def wellShapedB (scores : JVal) : Bool :=
  match scores with
  | .arr items => items.all itemOkB
  | _ => false

def jItems (scores : JVal) : List JVal :=
  match scores with
  | .arr l => l
  | _ => []

/-- Does this item carry `"id"` equal to the 1-based position `i`? -/
def itemIdIs (i : Nat) (it : JVal) : Bool :=
  match it with
  | .obj kvs =>
    (match objFind kvs ("id".toList) with
     | some (.num q) => q == (i : ℚ)
     | _ => false)
  | _ => false

/-- The entry for position `i` (Python dict semantics: the LAST item with
that id wins). -/
def lastIdMatch (items : List JVal) (i : Nat) : Option JVal :=
  (items.filter (itemIdIs i)).getLast?

/-- Spec side, from §4.5 steps 5–6: the score merged back by position,
defaulting to 0.5 when no entry with that id (or no `"score"` field)
exists. -/
def specScoreAt (items : List JVal) (i : Nat) : ℚ :=
  match lastIdMatch items i with
  | some (.obj kvs) =>
    (match objFind kvs ("score".toList) with
     | some (.num q) => q
     | _ => 1 / 2)
  | _ => 1 / 2

def specReasonAt (items : List JVal) (i : Nat) : JVal :=
  match lastIdMatch items i with
  | some (.obj kvs) => (objFind kvs ("reason".toList)).getD (.str [])
  | _ => .str []

/-- Spec side: enrich each candidate with the score at its 1-based
position and keep exactly those at or above the threshold, in candidate
order. -/
def specMergeFrom (items : List JVal) (th : ℚ) : Nat → List Cand → List SCand
  | _, [] => []
  | i, c :: cs =>
    if th ≤ specScoreAt items i then
      ⟨c.url, c.anchor, c.context, specScoreAt items i, specReasonAt items i⟩
        :: specMergeFrom items th (i + 1) cs
    else specMergeFrom items th (i + 1) cs

/-- Spec side, §4.5 steps 5–6 in full: merge by position, filter by
threshold, sort descending by score (stably). -/
def gate_spec (cands : List Cand) (scores : JVal) (th : ℚ) : List SCand :=
  sortScoreDesc (specMergeFrom (jItems scores) th 1 cands)

/-- The score map as a pure function (the raising-free shadow of
`buildScoreMap`, equal to it on well-shaped items). -/
def pureScoreMap : List JVal → List (JVal × JVal) → List (JVal × JVal)
  | [], m => m
  | item :: rest, m =>
    match item with
    | .obj kvs =>
      (match objFind kvs ("id".toList) with
       | some k => pureScoreMap rest (smapInsert m k item)
       | none => pureScoreMap rest m)
    | _ => pureScoreMap rest m

-- ## Claim C9 — lemmas

theorem objFind_isSome_any (kvs : List (List Char × JVal)) (k : List Char) :
    kvs.any (fun p => p.1 == k) = (objFind kvs k).isSome := by
  induction kvs with
  | nil => rfl
  | cons p rest ih =>
    obtain ⟨k0, v0⟩ := p
    by_cases h : k0 = k
    · simp [objFind, h]
    · simp [objFind, h, ih]

theorem pyEq_num_iff (x : JVal) (a b : ℚ) (h : pyEq x (.num a) = true) :
    pyEq x (.num b) = (a == b) := by
  cases x with
  | num q =>
    simp only [pyEq, beq_iff_eq] at h
    subst h
    rfl
  | bool c =>
    simp only [pyEq, beq_iff_eq] at h
    rw [← h]
    rfl
  | null => simp [pyEq] at h
  | str s => simp [pyEq] at h
  | arr l => simp [pyEq] at h
  | obj l => simp [pyEq] at h

theorem pyEq_no_num (x : JVal) (k : JVal) (i : ℚ)
    (hk : (∃ s, k = .str s) ∨ k = .null)
    (h : pyEq x k = true) : pyEq x (.num i) = false := by
  rcases hk with ⟨s, rfl⟩ | rfl
  · cases x <;> simp_all [pyEq]
  · cases x <;> simp_all [pyEq]

theorem smapGet_cons (k0 : JVal) (v0 : JVal) (m : List (JVal × JVal))
    (key d : JVal) :
    smapGet ((k0, v0) :: m) key d =
      if pyEq k0 key then v0 else smapGet m key d := by
  by_cases h : pyEq k0 key
  · simp [smapGet, List.find?, h]
  · simp only [Bool.not_eq_true] at h
    simp [smapGet, List.find?, h]

theorem smapGet_mapReplace_ne (q i : ℚ) (hne : q ≠ i) (v d : JVal)
    (m : List (JVal × JVal)) :
    smapGet (m.map (fun p => if pyEq p.1 (.num q) then (p.1, v) else p)) (.num i) d =
      smapGet m (.num i) d := by
  induction m with
  | nil => rfl
  | cons p m ih =>
    obtain ⟨k0, v0⟩ := p
    by_cases hk : pyEq k0 (.num q)
    · have hki : pyEq k0 (.num i) = false := by
        rw [pyEq_num_iff k0 q i hk]
        simpa using hne
      simp [hk, smapGet_cons, hki, ih]
    · simp only [Bool.not_eq_true] at hk
      by_cases hki : pyEq k0 (.num i)
      · simp [hk, smapGet_cons, hki]
      · simp only [Bool.not_eq_true] at hki
        simp [hk, smapGet_cons, hki, ih]

theorem smapGet_mapReplace_eq (q : ℚ) (v d : JVal) (m : List (JVal × JVal))
    (hAny : m.any (fun p => pyEq p.1 (.num q)) = true) :
    smapGet (m.map (fun p => if pyEq p.1 (.num q) then (p.1, v) else p)) (.num q) d =
      v := by
  induction m with
  | nil => simp at hAny
  | cons p m ih =>
    obtain ⟨k0, v0⟩ := p
    by_cases hk : pyEq k0 (.num q)
    · simp [hk, smapGet_cons]
    · simp only [Bool.not_eq_true] at hk
      simp only [List.any_cons, hk, Bool.false_or] at hAny
      simp [hk, smapGet_cons, ih hAny]

theorem smapGet_insert_num (m : List (JVal × JVal)) (q i : ℚ) (v d : JVal) :
    smapGet (smapInsert m (.num q) v) (.num i) d =
      if q = i then v else smapGet m (.num i) d := by
  by_cases hAny : m.any (fun p => pyEq p.1 (.num q)) = true
  · rw [smapInsert, if_pos hAny]
    by_cases hqi : q = i
    · subst hqi
      rw [if_pos rfl]
      exact smapGet_mapReplace_eq q v d m hAny
    · rw [if_neg hqi]
      exact smapGet_mapReplace_ne q i hqi v d m
  · rw [smapInsert, if_neg hAny]
    simp only [Bool.not_eq_true] at hAny
    induction m with
    | nil =>
      by_cases hqi : q = i
      · subst hqi
        simp [smapGet_cons, pyEq]
      · have : pyEq (JVal.num q) (.num i) = false := by
          simpa [pyEq] using hqi
        simp [smapGet_cons, this, hqi, smapGet]
    | cons p m ih =>
      obtain ⟨k0, v0⟩ := p
      simp only [List.any_cons, Bool.or_eq_false_iff] at hAny
      obtain ⟨hk0, hrest⟩ := hAny
      by_cases hki : pyEq k0 (.num i)
      · have hqi : q ≠ i := by
          intro hc
          subst hc
          rw [hki] at hk0
          exact Bool.noConfusion hk0
      -- head matches i, so q ≠ i and both sides return v0
        simp [List.cons_append, smapGet_cons, hki, hqi]
      · simp only [Bool.not_eq_true] at hki
        simp only [List.cons_append, smapGet_cons, hki, Bool.false_eq_true, if_false]
        exact ih hrest

theorem smapGet_mapReplace_other (k : JVal) (i : ℚ) (v d : JVal)
    (hk : (∃ s, k = .str s) ∨ k = .null) (m : List (JVal × JVal)) :
    smapGet (m.map (fun p => if pyEq p.1 k then (p.1, v) else p)) (.num i) d =
      smapGet m (.num i) d := by
  induction m with
  | nil => rfl
  | cons p m ih =>
    obtain ⟨k0, v0⟩ := p
    by_cases hpk : pyEq k0 k
    · have hki : pyEq k0 (.num i) = false := pyEq_no_num k0 k i hk hpk
      simp [hpk, smapGet_cons, hki, ih]
    · simp only [Bool.not_eq_true] at hpk
      by_cases hki : pyEq k0 (.num i)
      · simp [hpk, smapGet_cons, hki]
      · simp only [Bool.not_eq_true] at hki
        simp [hpk, smapGet_cons, hki, ih]

theorem smapGet_insert_other (m : List (JVal × JVal)) (k : JVal) (i : ℚ)
    (v d : JVal) (hk : (∃ s, k = .str s) ∨ k = .null) :
    smapGet (smapInsert m k v) (.num i) d = smapGet m (.num i) d := by
  have hkni : pyEq k (.num i) = false := by
    rcases hk with ⟨s, rfl⟩ | rfl <;> rfl
  by_cases hAny : m.any (fun p => pyEq p.1 k) = true
  · rw [smapInsert, if_pos hAny]
    exact smapGet_mapReplace_other k i v d hk m
  · rw [smapInsert, if_neg hAny]
    induction m with
    | nil => simp [smapGet_cons, hkni, smapGet]
    | cons p m ih =>
      obtain ⟨k0, v0⟩ := p
      by_cases hki : pyEq k0 (.num i)
      · simp [List.cons_append, smapGet_cons, hki]
      · simp only [Bool.not_eq_true] at hki
        simp only [List.cons_append, smapGet_cons, hki, Bool.false_eq_true, if_false]
        exact ih
          (by
            intro hc
            apply hAny
            simp only [List.any_cons, hc, Bool.or_true])

theorem jgetLast_cons {α : Type} (a : α) (l : List α) :
    (a :: l).getLast? = some (l.getLast?.getD a) := by
  induction l generalizing a with
  | nil => rfl
  | cons b t ih =>
    rw [List.getLast?_cons_cons, ih b]
    simp [ih b]

theorem jmem_of_getLast {α : Type} : ∀ (l : List α) (a : α),
    l.getLast? = some a → a ∈ l := by
  intro l
  induction l with
  | nil => intro a h; exact Option.noConfusion h
  | cons b t ih =>
    intro a h
    rw [jgetLast_cons] at h
    simp only [Option.some.injEq] at h
    cases ht : t.getLast? with
    | none =>
      rw [ht] at h
      simp only [Option.getD_none] at h
      subst h
      exact List.mem_cons_self _ _
    | some x =>
      rw [ht] at h
      simp only [Option.getD_some] at h
      subst h
      exact List.mem_cons_of_mem _ (ih x ht)

theorem pureScoreMap_get (items : List JVal) (hall : items.all itemOkB = true)
    (i : Nat) (d : JVal) : ∀ m0 : List (JVal × JVal),
    smapGet (pureScoreMap items m0) (.num (i : ℚ)) d =
      (match lastIdMatch items i with
       | some it => it
       | none => smapGet m0 (.num (i : ℚ)) d) := by
  induction items with
  | nil => intro m0; rfl
  | cons item rest ih =>
    intro m0
    simp only [List.all_cons, Bool.and_eq_true] at hall
    obtain ⟨hitem, hrest⟩ := hall
    have ihm := ih hrest
    cases item with
    | obj kvs =>
      cases hid : objFind kvs ("id".toList) with
      | none =>
        have hfl : itemIdIs i (.obj kvs) = false := by
          simp only [itemIdIs]
          rw [hid]
        simp only [pureScoreMap, hid]
        rw [ihm m0]
        simp [lastIdMatch, List.filter_cons, hfl]
      | some k =>
        simp only [itemOkB, hid, Bool.and_eq_true] at hitem
        obtain ⟨hidk, _⟩ := hitem
        cases k with
        | num q =>
          simp only [pureScoreMap, hid]
          rw [ihm (smapInsert m0 (.num q) (.obj kvs))]
          by_cases hqi : q = (i : ℚ)
          · have hfl : itemIdIs i (.obj kvs) = true := by
              simp only [itemIdIs]
              rw [hid]
              simpa using hqi
            cases hlr : lastIdMatch rest i with
            | some it =>
              simp only [lastIdMatch, List.filter_cons, hfl, if_pos]
              rw [jgetLast_cons]
              rw [lastIdMatch] at hlr
              simp [hlr]
            | none =>
              simp only [lastIdMatch, List.filter_cons, hfl, if_pos]
              rw [jgetLast_cons]
              rw [lastIdMatch] at hlr
              simp only [hlr, Option.getD_none]
              rw [smapGet_insert_num, if_pos hqi]
          · have hfl : itemIdIs i (.obj kvs) = false := by
              simp only [itemIdIs]
              rw [hid]
              simpa using hqi
            simp only [lastIdMatch, List.filter_cons, hfl, Bool.false_eq_true,
              if_false]
            cases hlr : lastIdMatch rest i with
            | some it =>
              rw [lastIdMatch] at hlr
              simp [hlr]
            | none =>
              rw [lastIdMatch] at hlr
              simp only [hlr]
              rw [smapGet_insert_num, if_neg hqi]
        | str s =>
          have hfl : itemIdIs i (.obj kvs) = false := by
            simp only [itemIdIs]
            rw [hid]
          simp only [pureScoreMap, hid]
          rw [ihm (smapInsert m0 (.str s) (.obj kvs))]
          simp only [lastIdMatch, List.filter_cons, hfl, Bool.false_eq_true, if_false]
          cases hlr : lastIdMatch rest i with
          | some it =>
            rw [lastIdMatch] at hlr
            simp [hlr]
          | none =>
            rw [lastIdMatch] at hlr
            simp only [hlr]
            rw [smapGet_insert_other m0 (.str s) _ _ _ (Or.inl ⟨s, rfl⟩)]
        | null =>
          have hfl : itemIdIs i (.obj kvs) = false := by
            simp only [itemIdIs]
            rw [hid]
          simp only [pureScoreMap, hid]
          rw [ihm (smapInsert m0 .null (.obj kvs))]
          simp only [lastIdMatch, List.filter_cons, hfl, Bool.false_eq_true, if_false]
          cases hlr : lastIdMatch rest i with
          | some it =>
            rw [lastIdMatch] at hlr
            simp [hlr]
          | none =>
            rw [lastIdMatch] at hlr
            simp only [hlr]
            rw [smapGet_insert_other m0 .null _ _ _ (Or.inr rfl)]
        | bool b => simp at hidk
        | arr l => simp at hidk
        | obj l => simp at hidk
    | null => simp [itemOkB] at hitem
    | bool b => simp [itemOkB] at hitem
    | num q => simp [itemOkB] at hitem
    | str s => simp [itemOkB] at hitem
    | arr l => simp [itemOkB] at hitem

theorem ok_bind {ε α β : Type} (a : α) (f : α → Except ε β) :
    ((Except.ok a : Except ε α) >>= f) = f a := rfl

theorem pyContains_obj_id (kvs : List (List Char × JVal)) (k : List Char) :
    pyContains (.str k) (.obj kvs) = .ok ((objFind kvs k).isSome) := by
  simp only [pyContains]
  congr 1
  simp only [pyEq]
  rw [objFind_isSome_any]

theorem buildScoreMap_eq (items : List JVal) (hall : items.all itemOkB = true) :
    ∀ m0, buildScoreMap items m0 = .ok (pureScoreMap items m0) := by
  induction items with
  | nil => intro m0; rfl
  | cons item rest ih =>
    intro m0
    simp only [List.all_cons, Bool.and_eq_true] at hall
    obtain ⟨hitem, hrest⟩ := hall
    cases item with
    | obj kvs =>
      cases hid : objFind kvs ("id".toList) with
      | none =>
        have hc : pyContains (.str ("id".toList)) (.obj kvs) = .ok false := by
          rw [pyContains_obj_id, hid]
          rfl
        simp only [buildScoreMap]
        rw [hc, ok_bind]
        simp only [Bool.false_eq_true, if_false]
        simp only [pureScoreMap, hid]
        exact ih hrest m0
      | some k =>
        have hc : pyContains (.str ("id".toList)) (.obj kvs) = .ok true := by
          rw [pyContains_obj_id, hid]
          rfl
        have hsub : pySubscript (.obj kvs) (.str ("id".toList)) = .ok k := by
          simp only [pySubscript]
          rw [hid]
        have hhash : pyHashable k = true := by
          simp only [itemOkB, Bool.and_eq_true] at hitem
          obtain ⟨hidk, _⟩ := hitem
          rw [hid] at hidk
          cases k <;> simp_all [pyHashable]
        simp only [buildScoreMap]
        rw [hc, ok_bind]
        simp only [if_true]
        rw [hsub, ok_bind, hhash]
        simp only [if_true]
        simp only [pureScoreMap, hid]
        exact ih hrest (smapInsert m0 k (.obj kvs))
    | null => simp [itemOkB] at hitem
    | bool b => simp [itemOkB] at hitem
    | num q => simp [itemOkB] at hitem
    | str s => simp [itemOkB] at hitem
    | arr l => simp [itemOkB] at hitem

theorem mergeLoop_spec (items : List JVal) (hall : items.all itemOkB = true)
    (smap : List (JVal × JVal)) (th : ℚ)
    (hget : ∀ (i : Nat) (dd : JVal), smapGet smap (.num (i : ℚ)) dd =
      (match lastIdMatch items i with | some it => it | none => dd)) :
    ∀ (cands : List Cand) (i : Nat),
      mergeLoop smap th i cands = .ok (specMergeFrom items th i cands) := by
  intro cands
  induction cands with
  | nil => intro i; rfl
  | cons c cs ih =>
    intro i
    have hs := hget i (.obj [])
    have key : ∃ (qs : ℚ) (rs : JVal),
        jget (smapGet smap (.num (i : ℚ)) (.obj [])) ("score".toList) (.num (1 / 2)) =
          .ok (.num qs)
        ∧ specScoreAt items i = qs
        ∧ jget (smapGet smap (.num (i : ℚ)) (.obj [])) ("reason".toList) (.str []) =
          .ok rs
        ∧ specReasonAt items i = rs := by
      cases hlm : lastIdMatch items i with
      | some it =>
        rw [hlm] at hs
        have hmem : it ∈ items := by
          have h1 : it ∈ items.filter (itemIdIs i) :=
            jmem_of_getLast _ _ (by rw [← lastIdMatch]; exact hlm)
          exact List.mem_of_mem_filter h1
        have hok : itemOkB it = true := (List.all_eq_true.mp hall) it hmem
        cases it with
        | obj kvs =>
          simp only [itemOkB, Bool.and_eq_true] at hok
          obtain ⟨_, hsck⟩ := hok
          cases hsc : objFind kvs ("score".toList) with
          | none =>
            refine ⟨1 / 2, (objFind kvs ("reason".toList)).getD (.str []), ?_, ?_, ?_, ?_⟩
            · rw [hs]
              simp only [jget]
              rw [hsc]
              rfl
            · simp only [specScoreAt, hlm, hsc]
            · rw [hs]
              simp only [jget]
            · simp only [specReasonAt, hlm]
          | some sv =>
            rw [hsc] at hsck
            cases sv with
            | num qs =>
              refine ⟨qs, (objFind kvs ("reason".toList)).getD (.str []), ?_, ?_, ?_, ?_⟩
              · rw [hs]
                simp only [jget]
                rw [hsc]
                rfl
              · simp only [specScoreAt, hlm, hsc]
              · rw [hs]
                simp only [jget]
              · simp only [specReasonAt, hlm]
            | null => simp at hsck
            | bool b => simp at hsck
            | str s => simp at hsck
            | arr l => simp at hsck
            | obj l => simp at hsck
        | null => simp [itemOkB] at hok
        | bool b => simp [itemOkB] at hok
        | num q => simp [itemOkB] at hok
        | str s => simp [itemOkB] at hok
        | arr l => simp [itemOkB] at hok
      | none =>
        rw [hlm] at hs
        refine ⟨1 / 2, .str [], ?_, ?_, ?_, ?_⟩
        · rw [hs]
          rfl
        · simp only [specScoreAt, hlm]
        · rw [hs]
          rfl
        · simp only [specReasonAt, hlm]
    obtain ⟨qs, rs, hj1, hspec1, hj2, hspec2⟩ := key
    simp only [mergeLoop, specMergeFrom]
    rw [hj1, ok_bind]
    rw [show pyFloat (.num qs) = .ok qs from rfl, ok_bind, hspec1]
    by_cases hth : th ≤ qs
    · rw [if_pos hth, if_pos hth]
      rw [hj2, ok_bind, ih (i + 1), ok_bind, hspec2]
    · rw [if_neg hth, if_neg hth]
      exact ih (i + 1)

/-- C9 (confirmed): when the scoring response parses as well-shaped JSON
(an array of objects with numeric/string/null ids and numeric scores),
`score_candidates` returns exactly the spec-side result: each candidate
scored by its 1-based position (0.5 default when no entry with that id, or
no score field, exists), filtered to `threshold ≤ score`, and stably sorted
descending — the output is sorted, and for every score value `qq` the
output's `qq`-scored items keep their original candidate order. -/
theorem C9_success_path (q ks : List Char) (th qq : ℚ) (cands : List Cand)
    (raw : List Char) (scores : JVal)
    (h1 : json_loads (stripFences raw) = .ok scores)
    (h2 : wellShapedB scores = true) :
    score_candidates q cands ks th (fun _ => .ok raw) = .ok (gate_spec cands scores th)
    ∧ SortedDesc (gate_spec cands scores th)
    ∧ (gate_spec cands scores th).filter (fun s => s.score == qq) =
        (specMergeFrom (jItems scores) th 1 cands).filter (fun s => s.score == qq) := by
  cases scores with
  | arr items =>
    have hall : items.all itemOkB = true := by simpa [wellShapedB] using h2
    refine ⟨?_, sortScoreDesc_sorted _, ?_⟩
    · by_cases he : cands.isEmpty
      · have hc : cands = [] := List.isEmpty_iff.mp he
        subst hc
        simp [score_candidates, gate_spec, specMergeFrom, sortScoreDesc, jItems]
      · have hbm := buildScoreMap_eq items hall []
        have hget : ∀ (i : Nat) (dd : JVal),
            smapGet (pureScoreMap items []) (.num (i : ℚ)) dd =
              (match lastIdMatch items i with | some it => it | none => dd) := by
          intro i dd
          rw [pureScoreMap_get items hall i dd []]
          cases lastIdMatch items i with
          | some it => rfl
          | none => rfl
        have hml := mergeLoop_spec items hall (pureScoreMap items []) th hget cands 1
        have heq : score_candidates q cands ks th (fun _ => .ok raw) =
            .ok (sortScoreDesc (specMergeFrom items th 1 cands)) := by
          simp [score_candidates, he, h1, pyIter, hbm, hml, ok_bind]
        rw [heq]
        simp [gate_spec, jItems]
    · simp only [gate_spec, jItems]
      exact filter_sortScoreDesc _ qq
  | null => simp [wellShapedB] at h2
  | bool b => simp [wellShapedB] at h2
  | num n => simp [wellShapedB] at h2
  | str s => simp [wellShapedB] at h2
  | obj l => simp [wellShapedB] at h2

/-- C9 witness: a concrete two-candidate run with a parsed response scoring
position 1 at 0.9 and leaving position 2 to the 0.5 default. -/
theorem C9_success_path_witness :
    json_loads (stripFences ("[\x7b\"id\":1,\"score\":0.9,\"reason\":\"x\"\x7d]".toList)) =
      .ok (JVal.arr [JVal.obj [("id".toList, JVal.num 1),
        ("score".toList, JVal.num (mkRat 9 10)), ("reason".toList, JVal.str ("x".toList))]])
    ∧ wellShapedB (JVal.arr [JVal.obj [("id".toList, JVal.num 1),
        ("score".toList, JVal.num (mkRat 9 10)), ("reason".toList, JVal.str ("x".toList))]]) = true
    ∧ (score_candidates ("q".toList)
          [⟨"u1".toList, "a1".toList, "x1".toList⟩, ⟨"u2".toList, "a2".toList, "x2".toList⟩]
          [] (2 / 5)
          (fun _ => .ok ("[\x7b\"id\":1,\"score\":0.9,\"reason\":\"x\"\x7d]".toList)) =
        .ok (gate_spec
          [⟨"u1".toList, "a1".toList, "x1".toList⟩, ⟨"u2".toList, "a2".toList, "x2".toList⟩]
          (JVal.arr [JVal.obj [("id".toList, JVal.num 1),
            ("score".toList, JVal.num (mkRat 9 10)), ("reason".toList, JVal.str ("x".toList))]])
          (2 / 5))
        ∧ SortedDesc (gate_spec
          [⟨"u1".toList, "a1".toList, "x1".toList⟩, ⟨"u2".toList, "a2".toList, "x2".toList⟩]
          (JVal.arr [JVal.obj [("id".toList, JVal.num 1),
            ("score".toList, JVal.num (mkRat 9 10)), ("reason".toList, JVal.str ("x".toList))]])
          (2 / 5))
        ∧ (gate_spec
          [⟨"u1".toList, "a1".toList, "x1".toList⟩, ⟨"u2".toList, "a2".toList, "x2".toList⟩]
          (JVal.arr [JVal.obj [("id".toList, JVal.num 1),
            ("score".toList, JVal.num (mkRat 9 10)), ("reason".toList, JVal.str ("x".toList))]])
          (2 / 5)).filter (fun s => s.score == (1 / 2 : ℚ)) =
          (specMergeFrom (jItems (JVal.arr [JVal.obj [("id".toList, JVal.num 1),
            ("score".toList, JVal.num (mkRat 9 10)), ("reason".toList, JVal.str ("x".toList))]]))
            (2 / 5) 1
            [⟨"u1".toList, "a1".toList, "x1".toList⟩, ⟨"u2".toList, "a2".toList, "x2".toList⟩]).filter
              (fun s => s.score == (1 / 2 : ℚ))) :=
  ⟨by decide, rfl,
   C9_success_path ("q".toList) [] (2 / 5) (1 / 2)
     [⟨"u1".toList, "a1".toList, "x1".toList⟩, ⟨"u2".toList, "a2".toList, "x2".toList⟩]
     ("[\x7b\"id\":1,\"score\":0.9,\"reason\":\"x\"\x7d]".toList)
     (JVal.arr [JVal.obj [("id".toList, JVal.num 1),
       ("score".toList, JVal.num (mkRat 9 10)), ("reason".toList, JVal.str ("x".toList))]])
     (by decide) rfl⟩
